import Mathlib

/-!
Shallow embedding of the rate-limited, dual-tier caching client for the
Blizzard game-data API (`src/lib/blizzardClient.ts`), keeping the source's
function names.  JS strings are modelled as `List Char`, JS numbers as `ℚ` (millisecond
timestamps and TTL arguments, integral in this program, as `ℤ`),
wall-clock instants (`Date.now()`) are passed explicitly, `fetch` is an
oracle from attempt index to response, and `Math.random()` draws are passed
as explicit sequences.  The in-memory `Map`-backed LRU cache is an
association list in insertion order (head = oldest); the unbounded
persistent `Map` and the on-disk JSON snapshot are modelled as partial
functions from keys to entries.
-/

namespace Blizzard

/-- Decidable equality for `Except`, used to evaluate concrete outcomes. -/
instance {ε α : Type} [DecidableEq ε] [DecidableEq α] : DecidableEq (Except ε α) :=
  fun x y =>
    match x, y with
    | .ok a, .ok b =>
        if h : a = b then isTrue (by rw [h])
        else isFalse (by intro hc; cases hc; exact h rfl)
    | .error a, .error b =>
        if h : a = b then isTrue (by rw [h])
        else isFalse (by intro hc; cases hc; exact h rfl)
    | .ok _, .error _ => isFalse (by intro hc; cases hc)
    | .error _, .ok _ => isFalse (by intro hc; cases hc)

/-- JS strings, modelled as lists of characters. -/
abbrev Str := List Char

/-- Constant `DEFAULT_MAX_LRU_ENTRIES` from the source. -/
def DEFAULT_MAX_LRU_ENTRIES : Nat := 300

/-- Constant `GLOBAL_RPS` from the source. -/
def GLOBAL_RPS : ℚ := 5

/-- Constant `PER_USER_RPS` from the source. -/
def PER_USER_RPS : ℚ := 2

/-- Constant `MAX_RETRIES` from the source. -/
def MAX_RETRIES : Nat := 4

/-- Constant `BACKOFF_BASE_MS` from the source. -/
def BACKOFF_BASE_MS : ℚ := 1000

/-- Constant `MAX_BACKOFF_MS` from the source. -/
def MAX_BACKOFF_MS : ℚ := 8000

/-- Constant `JITTER_MS` from the source. -/
def JITTER_MS : ℚ := 250

/-- Constant `CLASSIC_NAMESPACE_HINT` from the source. -/
def CLASSIC_NAMESPACE_HINT : Str := "classic".toList

/-- The separator used by `buildCacheKey` (`.join("::")`). -/
def sepStr : Str := "::".toList

/-- Embeds `Array.prototype.join(sep)`. -/
def joinSep (sep : Str) : List Str → Str
  | [] => []
  | [x] => x
  | x :: y :: xs => x ++ sep ++ joinSep sep (y :: xs)

/-- Embeds `buildCacheKey` (source lines 273-283): join the five components
with the separator, absent optional components becoming the empty string. -/
def buildCacheKey (method url : Str) (ns loc tokenUserId : Option Str) : Str :=
  joinSep sepStr [method, url, ns.getD [], loc.getD [], tokenUserId.getD []]

/-- Embeds `String.prototype.toLowerCase` (character-wise lowering). -/
def lowerStr (s : Str) : Str := s.map Char.toLower

/-- Embeds `String.prototype.includes`: substring containment. -/
def includesStr (hay needle : Str) : Bool :=
  match hay with
  | [] => needle.isEmpty
  | _ :: rest => needle.isPrefixOf hay || includesStr rest needle

/-- Embeds `isClassicEndpoint` (source lines 310-314): the namespace hint
check, else markers in the lowercased URL. -/
def isClassicEndpoint (url : Str) (ns : Option Str) : Bool :=
  let lowered := lowerStr url
  if (ns.map fun n => includesStr (lowerStr n) CLASSIC_NAMESPACE_HINT).getD false then
    true
  else
    includesStr lowered ("/classic".toList) || includesStr lowered ("profile-classic".toList)

/-- Structural model of a JS `URL`: a base (scheme, host, path) plus the
search parameters in order. -/
structure Url where
  base : Str
  query : List (Str × Str)
  deriving DecidableEq, Repr

/-- Embeds `URLSearchParams.has`. -/
def hasParam (q : List (Str × Str)) (k : Str) : Bool := q.any fun p => p.1 == k

/-- Embeds `withQueryParams` (source lines 285-297): add `namespace` and
`locale` as query parameters when truthy (non-empty) and not already
present.  `URLSearchParams.set` on an absent key appends it. -/
def withQueryParams (url : Url) (ns loc : Option Str) : Url :=
  let q1 := match ns with
    | some n =>
        if n ≠ [] && !hasParam url.query ("namespace".toList) then
          url.query ++ [(("namespace".toList : Str), n)]
        else url.query
    | none => url.query
  let q2 := match loc with
    | some l =>
        if l ≠ [] && !hasParam q1 ("locale".toList) then
          q1 ++ [(("locale".toList : Str), l)]
        else q1
    | none => q1
  { base := url.base, query := q2 }

/-- Serialization of the structural `URL` back to a string
(`target.toString()`). -/
def urlToStr (u : Url) : Str :=
  u.base ++
    (if u.query = [] then []
     else '?' :: joinSep ("&".toList) (u.query.map fun p => p.1 ++ '=' :: p.2))

/-- Embeds the `CacheEntry<T>` record: a value and an absolute expiry
instant in milliseconds. -/
structure CacheEntry (α : Type) where
  value : α
  expiresAt : ℤ
  deriving DecidableEq, Repr

/-- First entry stored under a key in an association list (`Map.get`). -/
def lookupEntry (m : List (Str × CacheEntry α)) (k : Str) : Option (CacheEntry α) :=
  (m.find? fun p => p.1 == k).map Prod.snd

/-- Removal of the entry stored under a key (`Map.delete`). -/
def eraseKey (m : List (Str × CacheEntry α)) (k : Str) : List (Str × CacheEntry α) :=
  m.eraseP fun p => p.1 == k

/-- Embeds `LruCache.get` (source lines 132-138): on a hit the entry is
re-inserted at the most-recent end of the map's insertion order. -/
def lruGet (m : List (Str × CacheEntry α)) (k : Str) :
    Option (CacheEntry α) × List (Str × CacheEntry α) :=
  match lookupEntry m k with
  | none => (none, m)
  | some e => (some e, eraseKey m k ++ [(k, e)])

/-- Embeds `LruCache.set` (source lines 140-149): delete any previous
binding, append at the most-recent end, and when the bound is exceeded
delete the entry under the oldest (first) key. -/
def lruSet (maxEntries : Nat) (m : List (Str × CacheEntry α)) (k : Str)
    (e : CacheEntry α) : List (Str × CacheEntry α) :=
  let m1 := if m.any (fun p => p.1 == k) then eraseKey m k else m
  let m2 := m1 ++ [(k, e)]
  if maxEntries < m2.length then
    match m2 with
    | [] => m2
    | p :: _ => eraseKey m2 p.1
  else m2

/-- Process-wide cache state: the in-memory LRU tier, the unbounded
persistent tier, the lazy-load flag, and the parsed content of the disk
snapshot file (`none` = file absent). -/
structure CacheState (α : Type) where
  memory : List (Str × CacheEntry α)
  persistent : Str → Option (CacheEntry α)
  persistentLoaded : Bool
  disk : Option (Str → Option (CacheEntry α))

/-- Embeds `loadPersistentCache` (source lines 246-262): once per process,
merge every entry of the disk snapshot into the persistent tier. -/
def loadPersistentCache (st : CacheState α) : CacheState α :=
  if st.persistentLoaded then st
  else
    match st.disk with
    | none => { st with persistentLoaded := true }
    | some df =>
        { st with
          persistentLoaded := true,
          persistent := fun k =>
            match df k with
            | some e => some e
            | none => st.persistent k }

/-- Embeds `savePersistentCache` (source lines 264-271): rewrite the disk
snapshot from the persistent tier in full. -/
def savePersistentCache (st : CacheState α) : CacheState α :=
  { st with disk := some st.persistent }

/-- Embeds `getCacheEntry` (source lines 218-236): consult the memory tier;
on miss or expiry, lazily load the snapshot and consult the persistent
tier, promoting an unexpired hit and deleting (then re-saving) an expired
one. -/
def getCacheEntry (now : ℤ) (k : Str) (st : CacheState α) :
    Option (CacheEntry α) × CacheState α :=
  let mres := lruGet st.memory k
  let st1 := { st with memory := mres.2 }
  if (mres.1.map fun e => decide (now < e.expiresAt)).getD false then
    (mres.1, st1)
  else
    let st2 := loadPersistentCache st1
    match st2.persistent k with
    | some persisted =>
        if now < persisted.expiresAt then
          (some persisted,
           { st2 with memory := lruSet DEFAULT_MAX_LRU_ENTRIES st2.memory k persisted })
        else
          (none,
           savePersistentCache
             { st2 with persistent := fun x => if x = k then none else st2.persistent x })
    | none => (none, st2)

/-- Embeds `setCacheEntry` (source lines 238-244): build the entry with
`expiresAt = now + ttlSeconds * 1000`, write both tiers, rewrite the
snapshot. -/
def setCacheEntry (now : ℤ) (k : Str) (v : α) (ttlSeconds : ℤ)
    (st : CacheState α) : CacheState α :=
  let entry : CacheEntry α := ⟨v, now + ttlSeconds * 1000⟩
  savePersistentCache
    { st with
      memory := lruSet DEFAULT_MAX_LRU_ENTRIES st.memory k entry,
      persistent := fun x => if x = k then some entry else st.persistent x }

/-- Token bucket state (`createTokenBucket`'s record shape). -/
structure Bucket where
  capacity : ℚ
  tokens : ℚ
  lastRefill : ℚ
  refillRate : ℚ
  deriving DecidableEq, Repr

/-- Embeds `createTokenBucket` (source lines 316-323). -/
def createTokenBucket (now ratePerSecond : ℚ) : Bucket :=
  { capacity := ratePerSecond,
    tokens := ratePerSecond,
    lastRefill := now,
    refillRate := ratePerSecond }

/-- Embeds `refillBucket` (source lines 355-364): credit
`elapsedSeconds * refillRate` tokens, capped at capacity; a non-positive
elapsed time is a no-op. -/
def refillBucket (now : ℚ) (b : Bucket) : Bucket :=
  let elapsedSeconds := (now - b.lastRefill) / 1000
  if elapsedSeconds ≤ 0 then b
  else
    { b with
      tokens := min b.capacity (b.tokens + elapsedSeconds * b.refillRate),
      lastRefill := now }

/-- One iteration of the `waitForToken` polling loop (source lines
341-353): refill, then debit one token exactly when a full token is
available (otherwise the loop sleeps and retries, leaving the count
unchanged). -/
def waitForTokenStep (now : ℚ) (b : Bucket) : Bucket :=
  let b1 := refillBucket now b
  if 1 ≤ b1.tokens then { b1 with tokens := b1.tokens - 1 } else b1

/-- An interleaving step on a bucket: either a bare `refillBucket` call or
one `waitForToken` loop iteration, each at some instant. -/
inductive BucketOp where
  | refill (now : ℚ)
  | acquire (now : ℚ)
  deriving DecidableEq, Repr

/-- Applies one interleaving step to a bucket. -/
def bucketStep (b : Bucket) : BucketOp → Bucket
  | .refill now => refillBucket now b
  | .acquire now => waitForTokenStep now b

/-- The global bucket plus the per-caller bucket registry (`globalBucket`
and `userBuckets` in the source). -/
structure ThrottleState where
  globalBucket : Bucket
  userBuckets : List (Str × Bucket)
  deriving DecidableEq, Repr

/-- Embeds `getUserBucket` (source lines 333-339): look the caller identity
up in the registry, lazily creating a bucket with the per-user rate. -/
def getUserBucket (now : ℚ) (st : ThrottleState) (tokenUserId : Str) :
    Bucket × ThrottleState :=
  match st.userBuckets.find? (fun p => p.1 == tokenUserId) with
  | some p => (p.2, st)
  | none =>
      let b := createTokenBucket now PER_USER_RPS
      (b, { st with userBuckets := st.userBuckets ++ [(tokenUserId, b)] })

/-- Replaces the registry entry under a caller identity. -/
def updateUserBucket (st : ThrottleState) (k : Str) (b : Bucket) : ThrottleState :=
  { st with userBuckets := st.userBuckets.map fun p => if p.1 = k then (k, b) else p }

/-- Embeds `throttle` (source lines 325-331): resolve the caller's bucket,
then acquire one token from the global bucket and one from the caller's
bucket; `nowG` and `nowU` are the instants at which each `waitForToken`
completes. -/
def throttle (now nowG nowU : ℚ) (st : ThrottleState) (tokenUserId : Str) :
    ThrottleState :=
  let res := getUserBucket now st tokenUserId
  let st2 := { res.2 with globalBucket := waitForTokenStep nowG res.2.globalBucket }
  updateUserBucket st2 tokenUserId (waitForTokenStep nowU res.1)

/-- A `fetch` response: its status, its parsed JSON body (`none` models a
body on which `response.json()` throws), and the `cache-control` `max-age`
directive modelled as an already-extracted numeral (`resolveTtl`'s regex
extraction). -/
structure Response (α : Type) where
  status : Nat
  body : Option α
  maxAge : Option Nat
  deriving DecidableEq, Repr

/-- Embeds `Response.ok`: status in the 2xx range. -/
def Response.ok (r : Response α) : Bool := 200 ≤ r.status && r.status ≤ 299

/-- Embeds `withJitter` (source lines 404-406), with the `Math.random()`
draw passed explicitly. -/
def withJitter (ms rand : ℚ) : ℚ := ms + rand * JITTER_MS

/-- Embeds `resolveTtl` (source lines 299-308): honor a present numeric
`max-age`, else the caller-supplied default. -/
def resolveTtl (maxAge : Option Nat) (defaultTtl : ℤ) : ℤ :=
  match maxAge with
  | some n => (n : ℤ)
  | none => defaultTtl

/-- Outcome of `fetchWithRetry`: the returned response, how many `fetch`
attempts were performed, and the backoff sleeps (in ms) taken between
attempts. -/
structure RetryResult (α : Type) where
  response : Response α
  attempts : Nat
  sleeps : List ℚ
  deriving DecidableEq, Repr

/-- Embeds the `while` loop of `fetchWithRetry` (source lines 370-399):
`attempt` and `backoff` are the loop variables, `responses i` is the
response of the i-th `fetch`, `rand i` the `Math.random()` draw for the
jitter after attempt i.  The structural parameter `fuel` counts the loop
iterations the guard `attempt < MAX_RETRIES` still admits (it is
`MAX_RETRIES - attempt` at every call site); the `fuel = 0` case is the
code after the loop (source line 401), which performs one more bare
`fetch` and is unreachable from `attempt = 0`. -/
def fetchWithRetryGo (responses : Nat → Response α) (rand : Nat → ℚ)
    (url : Str) (ns : Option Str) :
    Nat → Nat → ℚ → List ℚ → RetryResult α
  | 0, attempt, _backoff, sleeps => ⟨responses (attempt + 1), attempt + 1, sleeps⟩
  | fuel + 1, attempt, backoff, sleeps =>
    let a := attempt + 1
    let r := responses a
    if r.status = 429 then
      if MAX_RETRIES ≤ a then ⟨r, a, sleeps⟩
      else
        fetchWithRetryGo responses rand url ns fuel a (min (backoff * 2) MAX_BACKOFF_MS)
          (sleeps ++ [withJitter backoff (rand a)])
    else if 500 ≤ r.status ∧ r.status ≤ 599 then
      if MAX_RETRIES ≤ a then ⟨r, a, sleeps⟩
      else
        fetchWithRetryGo responses rand url ns fuel a (min (backoff * 2) MAX_BACKOFF_MS)
          (sleeps ++ [withJitter backoff (rand a)])
    else if (r.status = 403 ∨ r.status = 404) ∧ isClassicEndpoint url ns then
      ⟨r, a, sleeps⟩
    else ⟨r, a, sleeps⟩

/-- Embeds `fetchWithRetry` (source lines 366-402): run the retry loop from
`attempt = 0` with the base backoff. -/
def fetchWithRetry (responses : Nat → Response α) (rand : Nat → ℚ)
    (url : Str) (ns : Option Str) : RetryResult α :=
  fetchWithRetryGo responses rand url ns MAX_RETRIES 0 BACKOFF_BASE_MS []

/-- Embeds `BlizzardFetchOptions` (headers are not observable through the
fetch oracle and are omitted). -/
structure FetchOptions where
  method : Option Str := none
  ns : Option Str := none
  locale : Option Str := none
  tokenUserId : Option Str := none
  accessToken : Option Str := none
  deriving DecidableEq, Repr

/-- What `getCached` can throw: a typed `BlizzardApiError` carrying status
and the `endpointUnavailable` flag, or the untyped `SyntaxError` that a
rejecting `response.json()` propagates. -/
inductive GetError where
  | blizzardApi (status : Nat) (endpointUnavailable : Bool)
  | jsonParseFailure
  deriving DecidableEq, Repr

/-- Embeds `error instanceof BlizzardApiError`. -/
def isBlizzardApiError : GetError → Bool
  | .blizzardApi _ _ => true
  | .jsonParseFailure => false

/-- The module-level mutable state `getCached` touches: both cache tiers
and both kinds of rate-limit buckets. -/
structure ClientState (α : Type) where
  cache : CacheState (Option α)
  buckets : ThrottleState

/-- Observable outcome of one `getCached` call: the returned value (the
stored value is `Option α`, `none` embedding the JS `null` negative
marker) or the thrown error, the resulting module state, the derived cache
key, the identity passed to `throttle` (`none` when the call returned from
cache without throttling), and how many `fetch` attempts ran. -/
structure GetCachedResult (α : Type) where
  result : Except GetError (Option α)
  state : ClientState α
  cacheKey : Str
  throttleKey : Option Str
  fetchAttempts : Nat

/-- Embeds `getCached` (source lines 173-216).  `now` is the instant of the
cache read, `nowSet` the instant of the cache write after the network
round-trip, `nowG`/`nowU` the instants at which the two `waitForToken`
calls complete; `responses` and `rand` are this call's fetch and
`Math.random()` oracles. -/
def getCached (now nowSet : ℤ) (nowG nowU : ℚ) (responses : Nat → Response α)
    (rand : Nat → ℚ) (url : Url) (ttlSeconds : ℤ) (opts : FetchOptions)
    (st : ClientState α) : GetCachedResult α :=
  let method := opts.method.getD ("GET".toList)
  let finalUrl := withQueryParams url opts.ns opts.locale
  let cacheKey :=
    buildCacheKey method (urlToStr finalUrl) opts.ns opts.locale opts.tokenUserId
  let cres := getCacheEntry now cacheKey st.cache
  match cres.1 with
  | some cached =>
      { result := .ok cached.value, state := { st with cache := cres.2 },
        cacheKey := cacheKey, throttleKey := none, fetchAttempts := 0 }
  | none =>
      let tKey := opts.tokenUserId.getD ("global".toList)
      let buckets1 := throttle now nowG nowU st.buckets tKey
      let fr := fetchWithRetry responses rand (urlToStr finalUrl) opts.ns
      let response := fr.response
      if response.ok then
        match response.body with
        | none =>
            { result := .error .jsonParseFailure,
              state := ⟨cres.2, buckets1⟩, cacheKey := cacheKey,
              throttleKey := some tKey, fetchAttempts := fr.attempts }
        | some data =>
            let responseTtl := resolveTtl response.maxAge ttlSeconds
            { result := .ok (some data),
              state := ⟨setCacheEntry nowSet cacheKey (some data) responseTtl cres.2,
                        buckets1⟩,
              cacheKey := cacheKey, throttleKey := some tKey,
              fetchAttempts := fr.attempts }
      else
        let endpointUnavailable :=
          (response.status == 403 || response.status == 404) &&
            isClassicEndpoint (urlToStr finalUrl) opts.ns
        { result := .error (.blizzardApi response.status endpointUnavailable),
          state := ⟨if endpointUnavailable then
                      setCacheEntry nowSet cacheKey none (ttlSeconds * 2) cres.2
                    else cres.2,
                    buckets1⟩,
          cacheKey := cacheKey, throttleKey := some tKey,
          fetchAttempts := fr.attempts }

/-- An operation of the two-tier cache interface, for trace properties. -/
inductive CacheOp (α : Type) where
  | setOp (k : Str) (v : α) (ttlSeconds : ℤ)
  | getOp (k : Str)

/-- Applies one timed cache operation (a `get`'s returned entry is
discarded; only the state effect matters for traces). -/
def cacheOpStep (st : CacheState α) : CacheOp α × ℤ → CacheState α
  | (.setOp k v ttl, t) => setCacheEntry t k v ttl st
  | (.getOp k, t) => (getCacheEntry t k st).2

/-- Runs a timed cache-operation trace. -/
def runCacheOps (ops : List (CacheOp α × ℤ)) (st : CacheState α) : CacheState α :=
  ops.foldl cacheOpStep st

/-- The retry condition of `fetchWithRetry`: HTTP 429 or any 5xx status. -/
def retryable (r : Response α) : Prop :=
  r.status = 429 ∨ (500 ≤ r.status ∧ r.status ≤ 599)

/-- Decidability of the retry condition. -/
instance (r : Response α) : Decidable (retryable r) := by
  unfold retryable
  exact inferInstance

/-- Invariant carried by a token bucket: token count within
`[0, capacity]` and a non-negative refill rate. -/
def BucketInv (b : Bucket) : Prop :=
  0 ≤ b.tokens ∧ b.tokens ≤ b.capacity ∧ 0 ≤ b.refillRate

/-- Strings avoiding the colon, the character the cache-key separator is
built from. -/
def colonFree (s : Str) : Prop := ∀ c ∈ s, c ≠ ':'

/-- Decidability of colon-freeness. -/
instance (s : Str) : Decidable (colonFree s) := by
  unfold colonFree
  exact List.decidableBAll _ s

/-- Keys of an association-list tier, in order. -/
def keysOf (m : List (Str × CacheEntry α)) : List Str := m.map fun p => p.1

/-- Does a cache-trace operation set the given key? -/
def setsKey (op : CacheOp α) (k : Str) : Prop :=
  match op with
  | .setOp k2 _ _ => k2 = k
  | .getOp _ => False

/-- Read-your-write invariant: key `k` is bound to entry `e` in the
persistent tier, the disk snapshot agrees pointwise with the persistent
tier, the memory tier binds `k` to `e` or not at all, and memory keys are
unrepeated. -/
def RywInv (k : Str) (e : CacheEntry α) (st : CacheState α) : Prop :=
  st.persistent k = some e ∧
  (∃ df, st.disk = some df ∧ ∀ x, df x = st.persistent x) ∧
  (lookupEntry st.memory k = none ∨ lookupEntry st.memory k = some e) ∧
  (keysOf st.memory).Nodup

/-- An operation of the `LruCache` class interface. -/
inductive LruOp (α : Type) where
  | getOp (k : Str)
  | setOp (k : Str) (e : CacheEntry α)

/-- Applies an `LruCache` operation (a `get`'s answer is discarded; only
the recency effect matters for traces). -/
def lruStep (maxEntries : Nat) (m : List (Str × CacheEntry α)) :
    LruOp α → List (Str × CacheEntry α)
  | .getOp k => (lruGet m k).2
  | .setOp k e => lruSet maxEntries m k e

/-- Runs an `LruCache` trace from the empty cache. -/
def lruRun (maxEntries : Nat) (ops : List (LruOp α)) : List (Str × CacheEntry α) :=
  ops.foldl (lruStep maxEntries) []

/-- Ghost-instrumented LRU entry: the key, the entry, and the index of the
last trace operation that touched the key (a `set`, or a `get` that hit). -/
abbrev GEntry (α : Type) := Str × CacheEntry α × Nat

/-- Ghost `Map.get` lookup. -/
def gLookup (g : List (GEntry α)) (k : Str) : Option (GEntry α) :=
  g.find? fun p => p.1 == k

/-- Ghost `Map.delete`. -/
def gErase (g : List (GEntry α)) (k : Str) : List (GEntry α) :=
  g.eraseP fun p => p.1 == k

/-- Ghost `LruCache.get` at trace index `i`: a hit is re-stamped with `i`
and moved to the most-recent end. -/
def gGet (i : Nat) (g : List (GEntry α)) (k : Str) : List (GEntry α) :=
  match gLookup g k with
  | none => g
  | some p => gErase g k ++ [(k, p.2.1, i)]

/-- Ghost `LruCache.set` at trace index `i`: the new binding is stamped
with `i`; eviction removes the entry under the oldest key, as in `lruSet`. -/
def gSet (maxEntries i : Nat) (g : List (GEntry α)) (k : Str)
    (e : CacheEntry α) : List (GEntry α) :=
  let g1 := if g.any (fun p => p.1 == k) then gErase g k else g
  let g2 := g1 ++ [(k, e, i)]
  if maxEntries < g2.length then
    match g2 with
    | [] => g2
    | p :: _ => gErase g2 p.1
  else g2

/-- Ghost step on an index-paired operation. -/
def gStep (maxEntries : Nat) (g : List (GEntry α)) : Nat × LruOp α → List (GEntry α)
  | (i, .getOp k) => gGet i g k
  | (i, .setOp k e) => gSet maxEntries i g k e

/-- Ghost run: the trace with operation indices attached. -/
def gRun (maxEntries : Nat) (ops : List (LruOp α)) : List (GEntry α) :=
  (ops.enum).foldl (gStep maxEntries) []

/-- Erases the ghost stamps. -/
def projG (g : List (GEntry α)) : List (Str × CacheEntry α) :=
  g.map fun p => (p.1, p.2.1)

/-- Keys of a ghost state, in order. -/
def keysG (g : List (GEntry α)) : List Str := g.map fun p => p.1

/-- Stamps of a ghost state, in order. -/
def stampsG (g : List (GEntry α)) : List Nat := g.map fun p => p.2.2

/-- Ghost invariant at trace index `i`: stamps strictly increase along the
recency order, every stamp is below `i`, and keys are unrepeated. -/
def GhostInv (i : Nat) (g : List (GEntry α)) : Prop :=
  List.Pairwise (· < ·) (stampsG g) ∧ (∀ s ∈ stampsG g, s < i) ∧ (keysG g).Nodup

/-- The first step of `gSet`, mirroring `lruSetPrep` on ghost entries. -/
def gSetPrep (g : List (GEntry α)) (k : Str) : List (GEntry α) :=
  if g.any (fun p => p.1 == k) then gErase g k else g

/-- The empty process-start cache state: empty tiers, snapshot not yet
loaded, no snapshot file. -/
def emptyCacheState (α : Type) : CacheState α :=
  { memory := [], persistent := fun _ => none, persistentLoaded := false, disk := none }

/-- The process-start module state of the client: empty caches, the global
bucket created at instant 0, an empty per-caller registry. -/
def freshClient (α : Type) : ClientState α :=
  { cache := emptyCacheState (Option α),
    buckets := { globalBucket := createTokenBucket 0 GLOBAL_RPS, userBuckets := [] } }

/-- A concrete classic-profile URL (matches the legacy-data classifier). -/
def classicUrl : Url :=
  { base := "https://eu.api.blizzard.com/profile-classic/char/equipment".toList,
    query := [] }

/-- A concrete URL matching no legacy-data marker. -/
def plainUrl : Url :=
  { base := "https://example.com/data/item".toList, query := [] }

/-- The normalized URL string a `getCached` call fetches (the `finalUrl`
local of the source, serialized). -/
def finalUrlStr (url : Url) (opts : FetchOptions) : Str :=
  urlToStr (withQueryParams url opts.ns opts.locale)

/-- The cache key a `getCached` call derives (the `cacheKey` local of the
source). -/
def cacheKeyOf (url : Url) (opts : FetchOptions) : Str :=
  buildCacheKey (opts.method.getD ("GET".toList)) (finalUrlStr url opts)
    opts.ns opts.locale opts.tokenUserId

/-- Decidability of `setsKey`. -/
instance (op : CacheOp α) (k : Str) : Decidable (setsKey op k) :=
  match op with
  | .setOp k2 _ _ => inferInstanceAs (Decidable (k2 = k))
  | .getOp _ => inferInstanceAs (Decidable False)

/-- The first step of `lruSet`: delete any previous binding of the key
(the `m1` local of the source). -/
def lruSetPrep (m : List (Str × CacheEntry α)) (k : Str) : List (Str × CacheEntry α) :=
  if m.any (fun p => p.1 == k) then eraseKey m k else m

lemma refillBucket_inv (now : ℚ) (b : Bucket) (h : BucketInv b) :
    BucketInv (refillBucket now b) := by
  obtain ⟨h0, hc, hr⟩ := h
  simp only [refillBucket]
  split_ifs with he
  · exact ⟨h0, hc, hr⟩
  · have hpos : 0 < (now - b.lastRefill) / 1000 := lt_of_not_le he
    refine ⟨le_min (h0.trans hc) ?_, min_le_left _ _, hr⟩
    have : 0 ≤ (now - b.lastRefill) / 1000 * b.refillRate :=
      mul_nonneg hpos.le hr
    linarith

lemma waitForTokenStep_inv (now : ℚ) (b : Bucket) (h : BucketInv b) :
    BucketInv (waitForTokenStep now b) := by
  have h1 := refillBucket_inv now b h
  obtain ⟨h0, hc, hr⟩ := h1
  simp only [waitForTokenStep]
  split_ifs with ht
  · exact ⟨by simp only; linarith, by simp only; linarith, hr⟩
  · exact ⟨h0, hc, hr⟩

lemma bucketStep_inv (b : Bucket) (op : BucketOp) (h : BucketInv b) :
    BucketInv (bucketStep b op) := by
  cases op with
  | refill now => exact refillBucket_inv now b h
  | acquire now => exact waitForTokenStep_inv now b h

lemma foldl_bucketStep_inv (ops : List BucketOp) (b : Bucket) (h : BucketInv b) :
    BucketInv (ops.foldl bucketStep b) := by
  induction ops generalizing b with
  | nil => exact h
  | cons op rest ih => exact ih _ (bucketStep_inv b op h)

/-- C3: for every token bucket created by `createTokenBucket` (the global
bucket with rate `GLOBAL_RPS` and every per-caller bucket with rate
`PER_USER_RPS` are the two instantiations) and every interleaving of
`refillBucket` calls and `waitForToken` loop iterations, the token count
stays in the closed interval `[0, capacity]`: refill caps at capacity, and
a token is debited only when at least one full token is available. -/
theorem tokenBucket_tokens_in_range (r t0 : ℚ) (hr : 0 < r) (ops : List BucketOp) :
    0 ≤ (ops.foldl bucketStep (createTokenBucket t0 r)).tokens ∧
      (ops.foldl bucketStep (createTokenBucket t0 r)).tokens ≤
        (ops.foldl bucketStep (createTokenBucket t0 r)).capacity := by
  have h := foldl_bucketStep_inv ops (createTokenBucket t0 r) ⟨hr.le, le_refl r, hr.le⟩
  exact ⟨h.1, h.2.1⟩

/-- Witness for C3: the global bucket's rate, one acquisition step. -/
theorem tokenBucket_tokens_in_range_witness :
    0 < GLOBAL_RPS ∧
      (0 ≤ ([BucketOp.acquire 500].foldl bucketStep (createTokenBucket 0 GLOBAL_RPS)).tokens ∧
        ([BucketOp.acquire 500].foldl bucketStep (createTokenBucket 0 GLOBAL_RPS)).tokens ≤
          ([BucketOp.acquire 500].foldl bucketStep (createTokenBucket 0 GLOBAL_RPS)).capacity) :=
  ⟨by norm_num [GLOBAL_RPS],
   tokenBucket_tokens_in_range GLOBAL_RPS 0 (by norm_num [GLOBAL_RPS]) [BucketOp.acquire 500]⟩

lemma append_colon_inj (a1 : Str) (r1 : Str) (h1 : colonFree a1) :
    ∀ (a2 r2 : Str), colonFree a2 → a1 ++ ':' :: r1 = a2 ++ ':' :: r2 →
      a1 = a2 ∧ r1 = r2 := by
  induction a1 with
  | nil =>
      intro a2 r2 h2 heq
      cases a2 with
      | nil => simpa using heq
      | cons c t =>
          simp only [List.nil_append, List.cons_append, List.cons.injEq] at heq
          exact absurd heq.1.symm (h2 c (List.mem_cons_self c t))
  | cons c t ih =>
      intro a2 r2 h2 heq
      cases a2 with
      | nil =>
          simp only [List.nil_append, List.cons_append, List.cons.injEq] at heq
          exact absurd heq.1 (h1 c (List.mem_cons_self c t))
      | cons c2 t2 =>
          simp only [List.cons_append, List.cons.injEq] at heq
          have ht : colonFree t := fun x hx => h1 x (List.mem_cons_of_mem c hx)
          have ht2 : colonFree t2 := fun x hx => h2 x (List.mem_cons_of_mem c2 hx)
          obtain ⟨hthead, htail⟩ := ih ht t2 r2 ht2 heq.2
          exact ⟨by rw [heq.1, hthead], htail⟩

lemma joinSep_five (a b c d e : Str) :
    joinSep sepStr [a, b, c, d, e] =
      a ++ ':' :: ':' :: (b ++ ':' :: ':' :: (c ++ ':' :: ':' :: (d ++ ':' :: ':' :: e))) := by
  have hsep : sepStr = [':', ':'] := rfl
  simp [joinSep, hsep]

lemma append_sep_inj (a1 a2 r1 r2 : Str) (h1 : colonFree a1) (h2 : colonFree a2)
    (heq : a1 ++ ':' :: ':' :: r1 = a2 ++ ':' :: ':' :: r2) : a1 = a2 ∧ r1 = r2 := by
  obtain ⟨ha, hrest⟩ := append_colon_inj a1 (':' :: r1) h1 a2 (':' :: r2) h2 heq
  exact ⟨ha, by simpa using hrest⟩

/-- C6 counterexample: two distinct component tuples (one with the
separator inside a component) producing the same cache key, so
`buildCacheKey` is not injective on arbitrary strings. -/
theorem buildCacheKey_collision :
    buildCacheKey ("GET::a".toList) ("b".toList) none none none =
        buildCacheKey ("GET".toList) ("a::b".toList) none none none ∧
      ("GET::a".toList, "b".toList) ≠ (("GET".toList : Str), ("a::b".toList : Str)) := by
  constructor
  · rfl
  · decide

/-- C6 (amended): `buildCacheKey` is deterministic (it is a function of the
component tuple), and on components that are present and contain no colon
character it is injective; tuples whose components contain the separator
(or mix absent and empty components) can collide. -/
theorem buildCacheKey_inj (m1 u1 n1 l1 t1 m2 u2 n2 l2 t2 : Str)
    (hm1 : colonFree m1) (hu1 : colonFree u1) (hn1 : colonFree n1)
    (hl1 : colonFree l1) (hm2 : colonFree m2) (hu2 : colonFree u2)
    (hn2 : colonFree n2) (hl2 : colonFree l2)
    (heq : buildCacheKey m1 u1 (some n1) (some l1) (some t1) =
      buildCacheKey m2 u2 (some n2) (some l2) (some t2)) :
    m1 = m2 ∧ u1 = u2 ∧ n1 = n2 ∧ l1 = l2 ∧ t1 = t2 := by
  simp only [buildCacheKey, Option.getD_some, joinSep_five] at heq
  obtain ⟨hm, heq⟩ := append_sep_inj _ _ _ _ hm1 hm2 heq
  obtain ⟨hu, heq⟩ := append_sep_inj _ _ _ _ hu1 hu2 heq
  obtain ⟨hn, heq⟩ := append_sep_inj _ _ _ _ hn1 hn2 heq
  obtain ⟨hl, heq⟩ := append_sep_inj _ _ _ _ hl1 hl2 heq
  exact ⟨hm, hu, hn, hl, heq⟩

/-- Witness for the amended C6 on concrete colon-free components. -/
theorem buildCacheKey_inj_witness :
    ("GET".toList : Str) = ("GET".toList : Str) ∧
      ("https".toList : Str) = ("https".toList : Str) ∧
      ("ns1".toList : Str) = ("ns1".toList : Str) ∧
      ("en".toList : Str) = ("en".toList : Str) ∧
      ("user7".toList : Str) = ("user7".toList : Str) :=
  buildCacheKey_inj ("GET".toList) ("https".toList) ("ns1".toList) ("en".toList)
    ("user7".toList) ("GET".toList) ("https".toList) ("ns1".toList) ("en".toList)
    ("user7".toList) (by decide) (by decide) (by decide) (by decide)
    (by decide) (by decide) (by decide) (by decide) rfl

lemma fetchWithRetryGo_succ (responses : Nat → Response α) (rand : Nat → ℚ)
    (url : Str) (ns : Option Str) (fuel attempt : Nat) (backoff : ℚ) (sleeps : List ℚ) :
    fetchWithRetryGo responses rand url ns (fuel + 1) attempt backoff sleeps =
      if retryable (responses (attempt + 1)) then
        (if MAX_RETRIES ≤ attempt + 1 then ⟨responses (attempt + 1), attempt + 1, sleeps⟩
         else
           fetchWithRetryGo responses rand url ns fuel (attempt + 1)
             (min (backoff * 2) MAX_BACKOFF_MS)
             (sleeps ++ [withJitter backoff (rand (attempt + 1))]))
      else ⟨responses (attempt + 1), attempt + 1, sleeps⟩ := by
  simp only [fetchWithRetryGo]
  by_cases h429 : (responses (attempt + 1)).status = 429
  · simp [h429, retryable]
  · by_cases h5 : 500 ≤ (responses (attempt + 1)).status ∧ (responses (attempt + 1)).status ≤ 599
    · simp [h429, h5, retryable]
    · simp [h429, h5, retryable]

/-- C2: `fetchWithRetry` performs between 1 and 4 fetch attempts, returns
the last attempt's response as-is (in particular without throwing after a
4th retryable status), retries exactly on 429/5xx statuses, returns any
other response immediately, and sleeps
`min(1000 * 2^(attempt-1), 8000) + jitter` milliseconds between attempts
with jitter `rand * 250 ∈ [0, 250]`; when all four attempts are consumed
the total sleep is at least `1000 + 2000 + 4000` milliseconds. -/
theorem fetchWithRetry_spec {α : Type} (responses : Nat → Response α) (rand : Nat → ℚ)
    (hrand : ∀ i, 0 ≤ rand i ∧ rand i ≤ 1) (url : Str) (ns : Option Str) :
    1 ≤ (fetchWithRetry responses rand url ns).attempts ∧
      (fetchWithRetry responses rand url ns).attempts ≤ 4 ∧
      (fetchWithRetry responses rand url ns).response =
        responses (fetchWithRetry responses rand url ns).attempts ∧
      (∀ i, 1 ≤ i → i < (fetchWithRetry responses rand url ns).attempts →
        retryable (responses i)) ∧
      ((fetchWithRetry responses rand url ns).attempts < 4 →
        ¬ retryable (responses (fetchWithRetry responses rand url ns).attempts)) ∧
      (fetchWithRetry responses rand url ns).sleeps =
        (List.range ((fetchWithRetry responses rand url ns).attempts - 1)).map
          (fun i => withJitter (min (BACKOFF_BASE_MS * 2 ^ i) MAX_BACKOFF_MS) (rand (i + 1))) ∧
      ((fetchWithRetry responses rand url ns).attempts = 4 →
        7000 ≤ (fetchWithRetry responses rand url ns).sleeps.sum) := by
  have e1 : min (BACKOFF_BASE_MS * 2 ^ 0) MAX_BACKOFF_MS = BACKOFF_BASE_MS := by
    rw [pow_zero, mul_one, min_eq_left]
    norm_num [BACKOFF_BASE_MS, MAX_BACKOFF_MS]
  have e2 : min (BACKOFF_BASE_MS * 2 ^ 1) MAX_BACKOFF_MS = min (BACKOFF_BASE_MS * 2) MAX_BACKOFF_MS := by
    norm_num
  have e2v : min (BACKOFF_BASE_MS * 2) MAX_BACKOFF_MS = 2000 := by
    rw [min_eq_left] <;> norm_num [BACKOFF_BASE_MS, MAX_BACKOFF_MS]
  have e3 : min (BACKOFF_BASE_MS * 2 ^ 2) MAX_BACKOFF_MS = 4000 := by
    rw [min_eq_left] <;> norm_num [BACKOFF_BASE_MS, MAX_BACKOFF_MS]
  have e3v : min (min (BACKOFF_BASE_MS * 2) MAX_BACKOFF_MS * 2) MAX_BACKOFF_MS = 4000 := by
    rw [e2v, min_eq_left] <;> norm_num [MAX_BACKOFF_MS]
  by_cases h1 : retryable (responses 1)
  · by_cases h2 : retryable (responses 2)
    · by_cases h3 : retryable (responses 3)
      · -- three retryable statuses: all four attempts, three sleeps
        have hR : fetchWithRetry responses rand url ns =
            ⟨responses 4, 4,
             [withJitter BACKOFF_BASE_MS (rand 1),
              withJitter (min (BACKOFF_BASE_MS * 2) MAX_BACKOFF_MS) (rand 2),
              withJitter (min (min (BACKOFF_BASE_MS * 2) MAX_BACKOFF_MS * 2) MAX_BACKOFF_MS) (rand 3)]⟩ := by
          simp only [fetchWithRetry]
          show fetchWithRetryGo responses rand url ns (3 + 1) 0 BACKOFF_BASE_MS [] = _
          rw [fetchWithRetryGo_succ, if_pos h1, if_neg (by norm_num [MAX_RETRIES])]
          show fetchWithRetryGo responses rand url ns (2 + 1) 1 _ _ = _
          rw [fetchWithRetryGo_succ, if_pos h2, if_neg (by norm_num [MAX_RETRIES])]
          show fetchWithRetryGo responses rand url ns (1 + 1) 2 _ _ = _
          rw [fetchWithRetryGo_succ, if_pos h3, if_neg (by norm_num [MAX_RETRIES])]
          show fetchWithRetryGo responses rand url ns (0 + 1) 3 _ _ = _
          rw [fetchWithRetryGo_succ]
          split_ifs with h4 h5
          · rfl
          · exact absurd (by norm_num [MAX_RETRIES]) h5
          · rfl
        rw [hR]
        dsimp only
        refine ⟨by norm_num, by norm_num, rfl, ?_, by norm_num, ?_, ?_⟩
        · intro i hi1 hi4
          interval_cases i
          · exact h1
          · exact h2
          · exact h3
        · show _ = (List.range 3).map _
          have hr3 : List.range 3 = [0, 1, 2] := by decide
          rw [hr3]
          simp only [List.map_cons, List.map_nil, e1, e2, e3]
          rw [e3v]
        · intro _
          have j1 := mul_nonneg (hrand 1).1 (by norm_num [JITTER_MS] : (0 : ℚ) ≤ JITTER_MS)
          have j2 := mul_nonneg (hrand 2).1 (by norm_num [JITTER_MS] : (0 : ℚ) ≤ JITTER_MS)
          have j3 := mul_nonneg (hrand 3).1 (by norm_num [JITTER_MS] : (0 : ℚ) ≤ JITTER_MS)
          simp only [List.sum_cons, List.sum_nil, withJitter]
          rw [e3v, e2v]
          simp only [BACKOFF_BASE_MS]
          linarith
      · -- two retryable then a terminal status: three attempts
        have hR : fetchWithRetry responses rand url ns =
            ⟨responses 3, 3,
             [withJitter BACKOFF_BASE_MS (rand 1),
              withJitter (min (BACKOFF_BASE_MS * 2) MAX_BACKOFF_MS) (rand 2)]⟩ := by
          simp only [fetchWithRetry]
          show fetchWithRetryGo responses rand url ns (3 + 1) 0 BACKOFF_BASE_MS [] = _
          rw [fetchWithRetryGo_succ, if_pos h1, if_neg (by norm_num [MAX_RETRIES])]
          show fetchWithRetryGo responses rand url ns (2 + 1) 1 _ _ = _
          rw [fetchWithRetryGo_succ, if_pos h2, if_neg (by norm_num [MAX_RETRIES])]
          show fetchWithRetryGo responses rand url ns (1 + 1) 2 _ _ = _
          rw [fetchWithRetryGo_succ, if_neg h3]
          rfl
        rw [hR]
        dsimp only
        refine ⟨by norm_num, by norm_num, rfl, ?_, fun _ => h3, ?_, by norm_num⟩
        · intro i hi1 hi3
          interval_cases i
          · exact h1
          · exact h2
        · show _ = (List.range 2).map _
          have hr2 : List.range 2 = [0, 1] := by decide
          rw [hr2]
          simp only [List.map_cons, List.map_nil, e1, e2]
    · -- one retryable then a terminal status: two attempts
      have hR : fetchWithRetry responses rand url ns =
          ⟨responses 2, 2, [withJitter BACKOFF_BASE_MS (rand 1)]⟩ := by
        simp only [fetchWithRetry]
        show fetchWithRetryGo responses rand url ns (3 + 1) 0 BACKOFF_BASE_MS [] = _
        rw [fetchWithRetryGo_succ, if_pos h1, if_neg (by norm_num [MAX_RETRIES])]
        show fetchWithRetryGo responses rand url ns (2 + 1) 1 _ _ = _
        rw [fetchWithRetryGo_succ, if_neg h2]
        rfl
      rw [hR]
      dsimp only
      refine ⟨by norm_num, by norm_num, rfl, ?_, fun _ => h2, ?_, by norm_num⟩
      · intro i hi1 hi2
        interval_cases i
        exact h1
      · show _ = (List.range 1).map _
        have hr1 : List.range 1 = [0] := by decide
        rw [hr1]
        simp only [List.map_cons, List.map_nil, e1]
  · -- terminal first status: returned immediately, no sleeps
    have hR : fetchWithRetry responses rand url ns = ⟨responses 1, 1, []⟩ := by
      simp only [fetchWithRetry]
      show fetchWithRetryGo responses rand url ns (3 + 1) 0 BACKOFF_BASE_MS [] = _
      rw [fetchWithRetryGo_succ, if_neg h1]
    rw [hR]
    dsimp only
    refine ⟨le_refl 1, by norm_num, rfl, ?_, fun _ => h1, by simp, by norm_num⟩
    intro i hi1 hi0
    exact absurd (lt_of_lt_of_le hi0 hi1) (lt_irrefl i)

/-- Witness for C2 with all-success responses and zero jitter draws. -/
theorem fetchWithRetry_spec_witness :
    (∀ _i : Nat, 0 ≤ (0 : ℚ) ∧ (0 : ℚ) ≤ 1) ∧
      1 ≤ (fetchWithRetry (fun _ => (⟨200, some 0, none⟩ : Response Nat)) (fun _ => 0) [] none).attempts :=
  ⟨fun _ => ⟨le_refl 0, by norm_num⟩,
   (fetchWithRetry_spec (fun _ => (⟨200, some 0, none⟩ : Response Nat)) (fun _ => 0)
      (fun _ => ⟨le_refl 0, by norm_num⟩) [] none).1⟩

lemma beqStr_true {a b : Str} (h : a = b) : (a == b) = true := by simpa using h

lemma beqStr_false {a b : Str} (h : a ≠ b) : (a == b) = false := by simpa using h

lemma lookupEntry_cons (p : Str × CacheEntry α) (m : List (Str × CacheEntry α)) (k : Str) :
    lookupEntry (p :: m) k = if p.1 = k then some p.2 else lookupEntry m k := by
  by_cases h : p.1 = k
  · simp [lookupEntry, h]
  · simp [lookupEntry, h]

lemma eraseKey_cons (p : Str × CacheEntry α) (m : List (Str × CacheEntry α)) (k : Str) :
    eraseKey (p :: m) k = if p.1 = k then m else p :: eraseKey m k := by
  by_cases h : p.1 = k
  · simp [eraseKey, List.eraseP_cons, beqStr_true h, h]
  · simp [eraseKey, List.eraseP_cons, beqStr_false h, h]

lemma keysOf_cons (p : Str × CacheEntry α) (m : List (Str × CacheEntry α)) :
    keysOf (p :: m) = p.1 :: keysOf m := rfl

lemma keysOf_append (m1 m2 : List (Str × CacheEntry α)) :
    keysOf (m1 ++ m2) = keysOf m1 ++ keysOf m2 := by
  simp [keysOf]

lemma lookupEntry_append (m1 m2 : List (Str × CacheEntry α)) (k : Str) :
    lookupEntry (m1 ++ m2) k = (lookupEntry m1 k).or (lookupEntry m2 k) := by
  cases hm : m1.find? fun p => p.1 == k <;>
    simp [lookupEntry, List.find?_append, hm, Option.or]

lemma lookupEntry_eq_none_of_not_mem {m : List (Str × CacheEntry α)} {k : Str}
    (h : k ∉ keysOf m) : lookupEntry m k = none := by
  induction m with
  | nil => rfl
  | cons p rest ih =>
      rw [keysOf_cons, List.mem_cons] at h
      push_neg at h
      rw [lookupEntry_cons, if_neg (fun hc => h.1 hc.symm), ih h.2]

lemma lookupEntry_isSome_of_mem {m : List (Str × CacheEntry α)} {k : Str}
    (h : k ∈ keysOf m) : (lookupEntry m k).isSome := by
  induction m with
  | nil => simp [keysOf] at h
  | cons p rest ih =>
      rw [keysOf_cons, List.mem_cons] at h
      rw [lookupEntry_cons]
      by_cases hp : p.1 = k
      · simp [hp]
      · have hk : k ∈ keysOf rest := h.resolve_left fun hc => hp hc.symm
        simp [hp, ih hk]

lemma lookupEntry_eraseKey_ne (m : List (Str × CacheEntry α)) (k x : Str) (hx : x ≠ k) :
    lookupEntry (eraseKey m k) x = lookupEntry m x := by
  induction m with
  | nil => rfl
  | cons p rest ih =>
      rw [eraseKey_cons]
      by_cases h : p.1 = k
      · rw [if_pos h, lookupEntry_cons, if_neg fun hc : p.1 = x => hx (hc ▸ h)]
      · rw [if_neg h, lookupEntry_cons, lookupEntry_cons, ih]

lemma lookupEntry_eraseKey_self (m : List (Str × CacheEntry α)) (k : Str)
    (hnd : (keysOf m).Nodup) : lookupEntry (eraseKey m k) k = none := by
  induction m with
  | nil => rfl
  | cons p rest ih =>
      rw [keysOf_cons, List.nodup_cons] at hnd
      rw [eraseKey_cons]
      by_cases h : p.1 = k
      · rw [if_pos h]
        exact lookupEntry_eq_none_of_not_mem (h ▸ hnd.1)
      · rw [if_neg h, lookupEntry_cons, if_neg h, ih hnd.2]

lemma keysOf_eraseKey_sublist (m : List (Str × CacheEntry α)) (k : Str) :
    List.Sublist (keysOf (eraseKey m k)) (keysOf m) :=
  List.Sublist.map _ (List.eraseP_sublist m)

lemma nodup_keysOf_eraseKey (m : List (Str × CacheEntry α)) (k : Str)
    (hnd : (keysOf m).Nodup) : (keysOf (eraseKey m k)).Nodup :=
  List.Nodup.sublist (keysOf_eraseKey_sublist m k) hnd

lemma not_mem_keysOf_eraseKey (m : List (Str × CacheEntry α)) (k : Str)
    (hnd : (keysOf m).Nodup) : k ∉ keysOf (eraseKey m k) := by
  intro hmem
  have hs := lookupEntry_isSome_of_mem hmem
  rw [lookupEntry_eraseKey_self m k hnd] at hs
  simp at hs

lemma lruGet_fst (m : List (Str × CacheEntry α)) (k : Str) :
    (lruGet m k).1 = lookupEntry m k := by
  cases h : lookupEntry m k <;> simp [lruGet, h]

lemma lookupEntry_lruGet_snd (m : List (Str × CacheEntry α)) (k x : Str)
    (hnd : (keysOf m).Nodup) :
    lookupEntry (lruGet m k).2 x = lookupEntry m x := by
  cases h : lookupEntry m k with
  | none => simp [lruGet, h]
  | some e =>
      simp only [lruGet, h]
      rw [lookupEntry_append]
      by_cases hx : x = k
      · subst hx
        rw [lookupEntry_eraseKey_self m x hnd, h, lookupEntry_cons]
        simp
      · rw [lookupEntry_eraseKey_ne m k x hx, lookupEntry_cons,
          if_neg fun hc : k = x => hx hc.symm]
        cases h2 : lookupEntry m x <;> simp [lookupEntry]

lemma nodup_keysOf_lruGet (m : List (Str × CacheEntry α)) (k : Str)
    (hnd : (keysOf m).Nodup) : (keysOf (lruGet m k).2).Nodup := by
  cases h : lookupEntry m k with
  | none => simpa [lruGet, h] using hnd
  | some e =>
      simp only [lruGet, h]
      rw [keysOf_append, List.nodup_append]
      refine ⟨nodup_keysOf_eraseKey m k hnd, List.nodup_singleton _, ?_⟩
      intro a ha hak
      have hae : a = k := by simpa [keysOf] using hak
      exact not_mem_keysOf_eraseKey m k hnd (hae ▸ ha)

lemma lruSetPrep_spec (m : List (Str × CacheEntry α)) (k : Str)
    (hnd : (keysOf m).Nodup) :
    k ∉ keysOf (lruSetPrep m k) ∧ (keysOf (lruSetPrep m k)).Nodup ∧
      ∀ x, x ≠ k → lookupEntry (lruSetPrep m k) x = lookupEntry m x := by
  unfold lruSetPrep
  by_cases hany : m.any (fun p => p.1 == k) = true
  · rw [if_pos hany]
    exact ⟨not_mem_keysOf_eraseKey m k hnd, nodup_keysOf_eraseKey m k hnd,
      fun x hx => lookupEntry_eraseKey_ne m k x hx⟩
  · rw [if_neg hany]
    have hk : k ∉ keysOf m := by
      intro hmem
      obtain ⟨p, hp, hpk⟩ := List.mem_map.mp hmem
      exact hany (List.any_eq_true.mpr ⟨p, hp, beqStr_true hpk⟩)
    exact ⟨hk, hnd, fun _ _ => rfl⟩

lemma lruSet_eq_of_cons (maxEntries : Nat) {m : List (Str × CacheEntry α)} (k : Str)
    (e : CacheEntry α) {q : Str × CacheEntry α} {t : List (Str × CacheEntry α)}
    (h1 : lruSetPrep m k = q :: t) :
    lruSet maxEntries m k e =
      if maxEntries < (q :: t ++ [(k, e)]).length then eraseKey (q :: t ++ [(k, e)]) q.1
      else q :: t ++ [(k, e)] := by
  have h1x : (if m.any (fun p => p.1 == k) then eraseKey m k else m) = q :: t := h1
  simp only [lruSet, h1x, List.cons_append]

lemma lruSet_eq_of_nil (maxEntries : Nat) {m : List (Str × CacheEntry α)} (k : Str)
    (e : CacheEntry α) (h1 : lruSetPrep m k = []) :
    lruSet maxEntries m k e =
      if maxEntries < 1 then eraseKey [(k, e)] k else [(k, e)] := by
  have h1x : (if m.any (fun p => p.1 == k) then eraseKey m k else m) = [] := h1
  simp only [lruSet, h1x, List.nil_append, List.length_singleton]

lemma nodup_keysOf_prep_append (m : List (Str × CacheEntry α)) (k : Str) (e : CacheEntry α)
    (hnd : (keysOf m).Nodup) : (keysOf (lruSetPrep m k ++ [(k, e)])).Nodup := by
  obtain ⟨hk1, hnd1, _⟩ := lruSetPrep_spec m k hnd
  rw [keysOf_append, List.nodup_append]
  refine ⟨hnd1, List.nodup_singleton _, ?_⟩
  intro a ha hak
  have hae : a = k := by simpa [keysOf] using hak
  exact hk1 (hae ▸ ha)

lemma lruSet_lookup_self (maxEntries : Nat) (m : List (Str × CacheEntry α)) (k : Str)
    (e : CacheEntry α) (hnd : (keysOf m).Nodup) (hmax : 1 ≤ maxEntries) :
    lookupEntry (lruSet maxEntries m k e) k = some e := by
  obtain ⟨hk1, hnd1, hne1⟩ := lruSetPrep_spec m k hnd
  cases h1 : lruSetPrep m k with
  | nil =>
      rw [lruSet_eq_of_nil maxEntries k e h1, if_neg (by omega)]
      rw [lookupEntry_cons, if_pos rfl]
  | cons q t =>
      rw [h1] at hk1
      have hqk : q.1 ≠ k := by
        intro hc
        exact hk1 (by rw [keysOf_cons, ← hc]; exact List.mem_cons_self _ _)
      have hm2 : lookupEntry (q :: t ++ [(k, e)]) k = some e := by
        rw [show (q :: t ++ [(k, e)] : List (Str × CacheEntry α)) = (q :: t) ++ [(k, e)] from rfl,
          lookupEntry_append, lookupEntry_eq_none_of_not_mem hk1]
        rw [lookupEntry_cons, if_pos rfl]
        rfl
      rw [lruSet_eq_of_cons maxEntries k e h1]
      split_ifs with hlen
      · rw [lookupEntry_eraseKey_ne _ _ _ fun hc : k = q.1 => hqk hc.symm, hm2]
      · exact hm2

lemma lruSet_lookup_ne (maxEntries : Nat) (m : List (Str × CacheEntry α)) (k x : Str)
    (e : CacheEntry α) (hnd : (keysOf m).Nodup) (hx : x ≠ k) :
    lookupEntry (lruSet maxEntries m k e) x = lookupEntry m x ∨
      lookupEntry (lruSet maxEntries m k e) x = none := by
  obtain ⟨hk1, hnd1, hne1⟩ := lruSetPrep_spec m k hnd
  have hsing : lookupEntry [(k, e)] x = none := by
    rw [lookupEntry_cons, if_neg fun hc : k = x => hx hc.symm]
    rfl
  cases h1 : lruSetPrep m k with
  | nil =>
      rw [lruSet_eq_of_nil maxEntries k e h1]
      split_ifs with hlen
      · right
        rw [eraseKey_cons, if_pos rfl]
        rfl
      · left
        rw [hsing]
        have hp := hne1 x hx
        rw [h1] at hp
        exact hp.symm ▸ hp
  | cons q t =>
      have hm2 : lookupEntry (q :: t ++ [(k, e)]) x = lookupEntry m x := by
        rw [show (q :: t ++ [(k, e)] : List (Str × CacheEntry α)) = (q :: t) ++ [(k, e)] from rfl,
          lookupEntry_append, hsing]
        have hp := hne1 x hx
        rw [h1] at hp
        rw [hp]
        cases lookupEntry m x <;> rfl
      have hndm2 : (keysOf (q :: t ++ [(k, e)])).Nodup := by
        have := nodup_keysOf_prep_append m k e hnd
        rwa [h1] at this
      rw [lruSet_eq_of_cons maxEntries k e h1]
      split_ifs with hlen
      · by_cases hxq : x = q.1
        · right
          rw [hxq]
          exact lookupEntry_eraseKey_self _ _ hndm2
        · left
          rw [lookupEntry_eraseKey_ne _ _ _ hxq, hm2]
      · left
        exact hm2

lemma nodup_keysOf_lruSet (maxEntries : Nat) (m : List (Str × CacheEntry α)) (k : Str)
    (e : CacheEntry α) (hnd : (keysOf m).Nodup) :
    (keysOf (lruSet maxEntries m k e)).Nodup := by
  have hnd2 := nodup_keysOf_prep_append m k e hnd
  cases h1 : lruSetPrep m k with
  | nil =>
      rw [h1] at hnd2
      rw [lruSet_eq_of_nil maxEntries k e h1]
      split_ifs with hlen
      · rw [eraseKey_cons, if_pos rfl]
        exact List.nodup_nil
      · simpa using hnd2
  | cons q t =>
      rw [h1] at hnd2
      rw [lruSet_eq_of_cons maxEntries k e h1]
      split_ifs with hlen
      · exact nodup_keysOf_eraseKey _ _ hnd2
      · exact hnd2

lemma loadPersistentCache_memory (st : CacheState α) :
    (loadPersistentCache st).memory = st.memory := by
  by_cases h : st.persistentLoaded
  · simp [loadPersistentCache, h]
  · cases hd : st.disk <;> simp [loadPersistentCache, h, hd]

lemma loadPersistentCache_disk (st : CacheState α) :
    (loadPersistentCache st).disk = st.disk := by
  by_cases h : st.persistentLoaded
  · simp [loadPersistentCache, h]
  · cases hd : st.disk <;> simp [loadPersistentCache, h, hd]

lemma loadPersistentCache_persistent_of_consistent (st : CacheState α)
    (df : Str → Option (CacheEntry α)) (hdisk : st.disk = some df)
    (hcons : ∀ x, df x = st.persistent x) (x : Str) :
    (loadPersistentCache st).persistent x = st.persistent x := by
  by_cases h : st.persistentLoaded
  · simp [loadPersistentCache, h]
  · simp only [loadPersistentCache, h, hdisk, Bool.false_eq_true, if_false]
    rw [hcons x]
    cases st.persistent x <;> rfl

lemma setCacheEntry_rywInv (st : CacheState α) (k : Str) (v : α) (ttl t : ℤ)
    (hnd : (keysOf st.memory).Nodup) :
    RywInv k ⟨v, t + ttl * 1000⟩ (setCacheEntry t k v ttl st) := by
  refine ⟨?_, ⟨_, rfl, fun x => rfl⟩, ?_, ?_⟩
  · show (if k = k then some (⟨v, t + ttl * 1000⟩ : CacheEntry α) else st.persistent k) = _
    rw [if_pos rfl]
  · right
    exact lruSet_lookup_self _ _ _ _ hnd (by norm_num [DEFAULT_MAX_LRU_ENTRIES])
  · exact nodup_keysOf_lruSet _ _ _ _ hnd

lemma setCacheEntry_rywInv_other (st : CacheState α) (k : Str) (e : CacheEntry α)
    (hinv : RywInv k e st) (k2 : Str) (v : α) (ttl t : ℤ) (hne : k2 ≠ k) :
    RywInv k e (setCacheEntry t k2 v ttl st) := by
  obtain ⟨hp, ⟨df, hdisk, hcons⟩, hmem, hnd⟩ := hinv
  refine ⟨?_, ⟨_, rfl, fun x => rfl⟩, ?_, nodup_keysOf_lruSet _ _ _ _ hnd⟩
  · show (if k = k2 then some (⟨v, t + ttl * 1000⟩ : CacheEntry α) else st.persistent k) = some e
    rw [if_neg fun hc => hne hc.symm, hp]
  · have hh := lruSet_lookup_ne DEFAULT_MAX_LRU_ENTRIES st.memory k2 k
      ⟨v, t + ttl * 1000⟩ hnd (fun hc => hne hc.symm)
    show lookupEntry (lruSet DEFAULT_MAX_LRU_ENTRIES st.memory k2 ⟨v, t + ttl * 1000⟩) k = none ∨
      lookupEntry (lruSet DEFAULT_MAX_LRU_ENTRIES st.memory k2 ⟨v, t + ttl * 1000⟩) k = some e
    rcases hh with h | h
    · rw [h]
      exact hmem
    · left
      exact h

lemma getCacheEntry_fst_of_rywInv (st : CacheState α) (k : Str) (e : CacheEntry α)
    (hinv : RywInv k e st) (t : ℤ) (ht : t < e.expiresAt) :
    (getCacheEntry t k st).1 = some e := by
  obtain ⟨hp, ⟨df, hdisk, hcons⟩, hmem, hnd⟩ := hinv
  simp only [getCacheEntry]
  rcases hmem with hm | hm
  · have hcond : (((lruGet st.memory k).1.map fun e2 => decide (t < e2.expiresAt)).getD false) = false := by
      rw [lruGet_fst, hm]
      rfl
    rw [hcond, if_neg Bool.false_ne_true]
    have hper : (loadPersistentCache {st with memory := (lruGet st.memory k).2}).persistent k = some e := by
      rw [loadPersistentCache_persistent_of_consistent
        {st with memory := (lruGet st.memory k).2} df hdisk hcons k]
      exact hp
    rw [hper]
    dsimp only
    rw [if_pos ht]
  · have hcond : (((lruGet st.memory k).1.map fun e2 => decide (t < e2.expiresAt)).getD false) = true := by
      rw [lruGet_fst, hm]
      simpa using ht
    rw [hcond, if_pos rfl]
    dsimp only
    rw [lruGet_fst, hm]

lemma getCacheEntry_rywInv (st : CacheState α) (k : Str) (e : CacheEntry α)
    (hinv : RywInv k e st) (k2 : Str) (t : ℤ)
    (htime : k2 = k → t < e.expiresAt) :
    RywInv k e (getCacheEntry t k2 st).2 := by
  obtain ⟨hp, ⟨df, hdisk, hcons⟩, hmem, hnd⟩ := hinv
  simp only [getCacheEntry]
  by_cases hcond : (((lruGet st.memory k2).1.map fun e2 => decide (t < e2.expiresAt)).getD false) = true
  · rw [hcond, if_pos rfl]
    refine ⟨hp, ⟨df, hdisk, hcons⟩, ?_, nodup_keysOf_lruGet _ _ hnd⟩
    show lookupEntry (lruGet st.memory k2).2 k = none ∨ lookupEntry (lruGet st.memory k2).2 k = some e
    rw [lookupEntry_lruGet_snd _ _ _ hnd]
    exact hmem
  · rw [Bool.not_eq_true] at hcond
    rw [hcond, if_neg Bool.false_ne_true]
    have hload_p : ∀ x,
        (loadPersistentCache {st with memory := (lruGet st.memory k2).2}).persistent x = st.persistent x :=
      loadPersistentCache_persistent_of_consistent
        {st with memory := (lruGet st.memory k2).2} df hdisk hcons
    have hload_m : (loadPersistentCache {st with memory := (lruGet st.memory k2).2}).memory = (lruGet st.memory k2).2 :=
      loadPersistentCache_memory _
    have hload_d : (loadPersistentCache {st with memory := (lruGet st.memory k2).2}).disk = some df := by
      rw [loadPersistentCache_disk]
      exact hdisk
    have hndl : (keysOf (loadPersistentCache {st with memory := (lruGet st.memory k2).2}).memory).Nodup := by
      rw [hload_m]
      exact nodup_keysOf_lruGet _ _ hnd
    have hmeml : lookupEntry (loadPersistentCache {st with memory := (lruGet st.memory k2).2}).memory k = none ∨
        lookupEntry (loadPersistentCache {st with memory := (lruGet st.memory k2).2}).memory k = some e := by
      rw [hload_m, lookupEntry_lruGet_snd _ _ _ hnd]
      exact hmem
    cases hper : (loadPersistentCache {st with memory := (lruGet st.memory k2).2}).persistent k2 with
    | none =>
        exact ⟨by rw [hload_p k]; exact hp,
          ⟨df, hload_d, fun x => by rw [hcons x, ← hload_p x]⟩, hmeml, hndl⟩
    | some persisted =>
        dsimp only
        by_cases hexp : t < persisted.expiresAt
        · rw [if_pos hexp]
          dsimp only
          refine ⟨by rw [hload_p k]; exact hp,
            ⟨df, hload_d, fun x => by rw [hcons x, ← hload_p x]⟩, ?_, ?_⟩
          · dsimp only
            by_cases hk2 : k2 = k
            · subst hk2
              have he : persisted = e := by
                rw [hload_p k2, hp] at hper
                injection hper with hpe
                exact hpe.symm
              right
              rw [he]
              exact lruSet_lookup_self _ _ _ _ hndl (by norm_num [DEFAULT_MAX_LRU_ENTRIES])
            · have hh := lruSet_lookup_ne DEFAULT_MAX_LRU_ENTRIES
                (loadPersistentCache {st with memory := (lruGet st.memory k2).2}).memory k2 k
                persisted hndl (fun hc => hk2 hc.symm)
              rcases hh with h | h
              · rcases hmeml with hx | hx
                · left
                  rw [h, hx]
                · right
                  rw [h, hx]
              · left
                exact h
          · dsimp only
            exact nodup_keysOf_lruSet _ _ _ _ hndl
        · rw [if_neg hexp]
          dsimp only
          have hk2 : k2 ≠ k := by
            intro hc
            subst hc
            rw [hload_p k2, hp] at hper
            injection hper with hpe
            exact hexp (hpe ▸ htime rfl)
          refine ⟨?_, ⟨_, rfl, fun x => rfl⟩, hmeml, hndl⟩
          show (if k = k2 then none
            else (loadPersistentCache {st with memory := (lruGet st.memory k2).2}).persistent k) = some e
          rw [if_neg fun hc => hk2 hc.symm, hload_p k]
          exact hp

lemma nodup_keysOf_getCacheEntry (st : CacheState α) (k : Str) (t : ℤ)
    (hnd : (keysOf st.memory).Nodup) :
    (keysOf (getCacheEntry t k st).2.memory).Nodup := by
  simp only [getCacheEntry]
  by_cases hcond : (((lruGet st.memory k).1.map fun e2 => decide (t < e2.expiresAt)).getD false) = true
  · rw [hcond, if_pos rfl]
    exact nodup_keysOf_lruGet _ _ hnd
  · rw [Bool.not_eq_true] at hcond
    rw [hcond, if_neg Bool.false_ne_true]
    have hLm := loadPersistentCache_memory {st with memory := (lruGet st.memory k).2}
    cases hper : (loadPersistentCache {st with memory := (lruGet st.memory k).2}).persistent k with
    | none =>
        dsimp only
        rw [hLm]
        exact nodup_keysOf_lruGet _ _ hnd
    | some persisted =>
        dsimp only
        by_cases hexp : t < persisted.expiresAt
        · rw [if_pos hexp]
          dsimp only
          apply nodup_keysOf_lruSet
          rw [hLm]
          exact nodup_keysOf_lruGet _ _ hnd
        · rw [if_neg hexp]
          dsimp only
          rw [hLm]
          exact nodup_keysOf_lruGet _ _ hnd

lemma runCacheOps_rywInv (ops : List (CacheOp α × ℤ)) (st : CacheState α) (k : Str)
    (e : CacheEntry α) (hinv : RywInv k e st) (tGet : ℤ) (hexp : tGet < e.expiresAt)
    (hops : ∀ p ∈ ops, p.2 ≤ tGet ∧ ¬ setsKey p.1 k) :
    RywInv k e (runCacheOps ops st) := by
  induction ops generalizing st with
  | nil => exact hinv
  | cons op rest ih =>
      obtain ⟨opc, time⟩ := op
      have hop := hops (opc, time) (List.mem_cons_self _ _)
      have hrest : ∀ p ∈ rest, p.2 ≤ tGet ∧ ¬ setsKey p.1 k :=
        fun p hp => hops p (List.mem_cons_of_mem _ hp)
      show RywInv k e (runCacheOps rest (cacheOpStep st (opc, time)))
      refine ih (cacheOpStep st (opc, time)) ?_ hrest
      cases opc with
      | setOp k2 v ttl =>
          have hne : k2 ≠ k := hop.2
          exact setCacheEntry_rywInv_other st k e hinv k2 v ttl time hne
      | getOp k2 =>
          exact getCacheEntry_rywInv st k e hinv k2 time
            (fun _ => lt_of_le_of_lt hop.1 hexp)

/-- C4: read-your-write for the two-tier cache: a `setCacheEntry (k, v, ttl)`
at instant `t`, followed by any cache operations that do not set `k` (at
instants at most `tGet`), followed by a `getCacheEntry k` at instant
`tGet` before the entry expires, returns the entry holding exactly `v`
(served from the in-memory tier or promoted from the disk tier). -/
theorem cache_read_your_write {α : Type} (st0 : CacheState α)
    (hnd : (keysOf st0.memory).Nodup) (k : Str) (v : α) (ttl t tGet : ℤ)
    (ops : List (CacheOp α × ℤ))
    (hops : ∀ p ∈ ops, p.2 ≤ tGet ∧ ¬ setsKey p.1 k)
    (hfresh : tGet < t + ttl * 1000) :
    (getCacheEntry tGet k (runCacheOps ops (setCacheEntry t k v ttl st0))).1 =
      some ⟨v, t + ttl * 1000⟩ := by
  have h1 := setCacheEntry_rywInv st0 k v ttl t hnd
  have h2 := runCacheOps_rywInv ops _ k _ h1 tGet hfresh hops
  exact getCacheEntry_fst_of_rywInv _ _ _ h2 tGet hfresh

/-- Witness for C4: a set of `k`, an intervening set of another key and a
get of `k`, then the final get of `k` within the TTL window. -/
theorem cache_read_your_write_witness :
    (keysOf (emptyCacheState Nat).memory).Nodup ∧
      (∀ p ∈ [((CacheOp.setOp ("o".toList) 1 10 : CacheOp Nat), (5 : ℤ)),
              ((CacheOp.getOp ("k".toList) : CacheOp Nat), (6 : ℤ))],
        p.2 ≤ (1000 : ℤ) ∧ ¬ setsKey p.1 ("k".toList)) ∧
      (1000 : ℤ) < 0 + 60 * 1000 ∧
      (getCacheEntry 1000 ("k".toList)
          (runCacheOps
            [((CacheOp.setOp ("o".toList) 1 10 : CacheOp Nat), (5 : ℤ)),
             ((CacheOp.getOp ("k".toList) : CacheOp Nat), (6 : ℤ))]
            (setCacheEntry 0 ("k".toList) 7 60 (emptyCacheState Nat)))).1 =
        some ⟨7, 0 + 60 * 1000⟩ :=
  ⟨by decide, by decide, by decide,
   cache_read_your_write (emptyCacheState Nat) (by decide) ("k".toList) 7 60 0 1000
     [((CacheOp.setOp ("o".toList) 1 10 : CacheOp Nat), (5 : ℤ)),
      ((CacheOp.getOp ("k".toList) : CacheOp Nat), (6 : ℤ))]
     (by decide) (by decide)⟩

/-- C5: a `getCacheEntry k` issued once the last `setCacheEntry (k, v, ttl)`
is at least `ttl` seconds old misses; the expired entry is deleted from the
persistent tier and the disk snapshot is rewritten (and afterwards agrees
with the persistent tier), while the in-memory tier's key-to-entry mapping
is not modified by the get (the expired entry is merely never returned). -/
theorem cache_expired_miss_and_disk_evict {α : Type} (st0 : CacheState α)
    (hnd : (keysOf st0.memory).Nodup) (k : Str) (v : α) (ttl t tGet : ℤ)
    (hexp : t + ttl * 1000 ≤ tGet) :
    (getCacheEntry tGet k (setCacheEntry t k v ttl st0)).1 = none ∧
      (getCacheEntry tGet k (setCacheEntry t k v ttl st0)).2.persistent k = none ∧
      (getCacheEntry tGet k (setCacheEntry t k v ttl st0)).2.disk =
        some (getCacheEntry tGet k (setCacheEntry t k v ttl st0)).2.persistent ∧
      ∀ x, lookupEntry (getCacheEntry tGet k (setCacheEntry t k v ttl st0)).2.memory x =
        lookupEntry (setCacheEntry t k v ttl st0).memory x := by
  obtain ⟨hp, ⟨df, hdisk, hcons⟩, _, hnd1⟩ := setCacheEntry_rywInv st0 k v ttl t hnd
  have hmemk : lookupEntry (setCacheEntry t k v ttl st0).memory k =
      some ⟨v, t + ttl * 1000⟩ :=
    lruSet_lookup_self DEFAULT_MAX_LRU_ENTRIES st0.memory k ⟨v, t + ttl * 1000⟩ hnd
      (by norm_num [DEFAULT_MAX_LRU_ENTRIES])
  simp only [getCacheEntry]
  have hcond : (((lruGet (setCacheEntry t k v ttl st0).memory k).1.map
      fun e2 => decide (tGet < e2.expiresAt)).getD false) = false := by
    rw [lruGet_fst, hmemk]
    simp [not_lt.mpr hexp]
  rw [hcond, if_neg Bool.false_ne_true]
  have hLp : ∀ x,
      (loadPersistentCache {(setCacheEntry t k v ttl st0) with
        memory := (lruGet (setCacheEntry t k v ttl st0).memory k).2}).persistent x =
      (setCacheEntry t k v ttl st0).persistent x :=
    loadPersistentCache_persistent_of_consistent
      {(setCacheEntry t k v ttl st0) with
        memory := (lruGet (setCacheEntry t k v ttl st0).memory k).2} df hdisk hcons
  have hLm : (loadPersistentCache {(setCacheEntry t k v ttl st0) with
      memory := (lruGet (setCacheEntry t k v ttl st0).memory k).2}).memory =
      (lruGet (setCacheEntry t k v ttl st0).memory k).2 :=
    loadPersistentCache_memory _
  have hLper : (loadPersistentCache {(setCacheEntry t k v ttl st0) with
      memory := (lruGet (setCacheEntry t k v ttl st0).memory k).2}).persistent k =
      some ⟨v, t + ttl * 1000⟩ := by
    rw [hLp k]
    exact hp
  rw [hLper]
  dsimp only
  rw [if_neg (not_lt.mpr hexp)]
  dsimp only
  refine ⟨rfl, ?_, rfl, ?_⟩
  · show (if k = k then none else _) = none
    rw [if_pos rfl]
  · intro x
    simp only [savePersistentCache]
    rw [hLm, lookupEntry_lruGet_snd _ _ _ hnd1]

/-- Witness for C5: set at instant 0 with a 60-second TTL, get at the
expiry instant. -/
theorem cache_expired_miss_and_disk_evict_witness :
    (keysOf (emptyCacheState Nat).memory).Nodup ∧
      (0 : ℤ) + 60 * 1000 ≤ 60000 ∧
      (getCacheEntry 60000 ("k".toList) (setCacheEntry 0 ("k".toList) 7 60 (emptyCacheState Nat))).1 = none :=
  ⟨by decide, by decide,
   (cache_expired_miss_and_disk_evict (emptyCacheState Nat) (by decide) ("k".toList) 7 60 0
      60000 (by decide)).1⟩

lemma getCached_hit {α : Type} (now nowSet : ℤ) (nowG nowU : ℚ)
    (responses : Nat → Response α) (rand : Nat → ℚ) (url : Url) (ttl : ℤ)
    (opts : FetchOptions) (st : ClientState α) (e : CacheEntry (Option α))
    (h : (getCacheEntry now (cacheKeyOf url opts) st.cache).1 = some e) :
    getCached now nowSet nowG nowU responses rand url ttl opts st =
      { result := .ok e.value,
        state := { st with cache := (getCacheEntry now (cacheKeyOf url opts) st.cache).2 },
        cacheKey := cacheKeyOf url opts, throttleKey := none, fetchAttempts := 0 } := by
  simp only [cacheKeyOf, finalUrlStr] at h
  simp only [getCached, cacheKeyOf, finalUrlStr]
  rw [h]

lemma getCached_miss_notOk {α : Type} (now nowSet : ℤ) (nowG nowU : ℚ)
    (responses : Nat → Response α) (rand : Nat → ℚ) (url : Url) (ttl : ℤ)
    (opts : FetchOptions) (st : ClientState α)
    (h : (getCacheEntry now (cacheKeyOf url opts) st.cache).1 = none)
    (hok : (fetchWithRetry responses rand (finalUrlStr url opts) opts.ns).response.ok = false) :
    getCached now nowSet nowG nowU responses rand url ttl opts st =
      { result := .error (.blizzardApi
          (fetchWithRetry responses rand (finalUrlStr url opts) opts.ns).response.status
          (((fetchWithRetry responses rand (finalUrlStr url opts) opts.ns).response.status == 403 ||
              (fetchWithRetry responses rand (finalUrlStr url opts) opts.ns).response.status == 404) &&
            isClassicEndpoint (finalUrlStr url opts) opts.ns)),
        state :=
          { cache :=
              if (((fetchWithRetry responses rand (finalUrlStr url opts) opts.ns).response.status == 403 ||
                    (fetchWithRetry responses rand (finalUrlStr url opts) opts.ns).response.status == 404) &&
                  isClassicEndpoint (finalUrlStr url opts) opts.ns) = true then
                setCacheEntry nowSet (cacheKeyOf url opts) none (ttl * 2)
                  (getCacheEntry now (cacheKeyOf url opts) st.cache).2
              else (getCacheEntry now (cacheKeyOf url opts) st.cache).2,
            buckets := throttle (now : ℚ) nowG nowU st.buckets (opts.tokenUserId.getD ("global".toList)) },
        cacheKey := cacheKeyOf url opts,
        throttleKey := some (opts.tokenUserId.getD ("global".toList)),
        fetchAttempts := (fetchWithRetry responses rand (finalUrlStr url opts) opts.ns).attempts } := by
  simp only [cacheKeyOf, finalUrlStr] at h hok
  simp only [getCached, cacheKeyOf, finalUrlStr]
  rw [h]
  dsimp only
  rw [hok, if_neg Bool.false_ne_true]

lemma getCached_miss_ok_noBody {α : Type} (now nowSet : ℤ) (nowG nowU : ℚ)
    (responses : Nat → Response α) (rand : Nat → ℚ) (url : Url) (ttl : ℤ)
    (opts : FetchOptions) (st : ClientState α)
    (h : (getCacheEntry now (cacheKeyOf url opts) st.cache).1 = none)
    (hok : (fetchWithRetry responses rand (finalUrlStr url opts) opts.ns).response.ok = true)
    (hbody : (fetchWithRetry responses rand (finalUrlStr url opts) opts.ns).response.body = none) :
    getCached now nowSet nowG nowU responses rand url ttl opts st =
      { result := .error .jsonParseFailure,
        state :=
          { cache := (getCacheEntry now (cacheKeyOf url opts) st.cache).2,
            buckets := throttle (now : ℚ) nowG nowU st.buckets (opts.tokenUserId.getD ("global".toList)) },
        cacheKey := cacheKeyOf url opts,
        throttleKey := some (opts.tokenUserId.getD ("global".toList)),
        fetchAttempts := (fetchWithRetry responses rand (finalUrlStr url opts) opts.ns).attempts } := by
  simp only [cacheKeyOf, finalUrlStr] at h hok hbody
  simp only [getCached, cacheKeyOf, finalUrlStr]
  rw [h]
  dsimp only
  rw [hok, if_pos rfl, hbody]

lemma getCached_miss_ok_body {α : Type} (now nowSet : ℤ) (nowG nowU : ℚ)
    (responses : Nat → Response α) (rand : Nat → ℚ) (url : Url) (ttl : ℤ)
    (opts : FetchOptions) (st : ClientState α) (data : α)
    (h : (getCacheEntry now (cacheKeyOf url opts) st.cache).1 = none)
    (hok : (fetchWithRetry responses rand (finalUrlStr url opts) opts.ns).response.ok = true)
    (hbody : (fetchWithRetry responses rand (finalUrlStr url opts) opts.ns).response.body = some data) :
    getCached now nowSet nowG nowU responses rand url ttl opts st =
      { result := .ok (some data),
        state :=
          { cache := setCacheEntry nowSet (cacheKeyOf url opts) (some data)
              (resolveTtl (fetchWithRetry responses rand (finalUrlStr url opts) opts.ns).response.maxAge ttl)
              (getCacheEntry now (cacheKeyOf url opts) st.cache).2,
            buckets := throttle (now : ℚ) nowG nowU st.buckets (opts.tokenUserId.getD ("global".toList)) },
        cacheKey := cacheKeyOf url opts,
        throttleKey := some (opts.tokenUserId.getD ("global".toList)),
        fetchAttempts := (fetchWithRetry responses rand (finalUrlStr url opts) opts.ns).attempts } := by
  simp only [cacheKeyOf, finalUrlStr] at h hok hbody
  simp only [getCached, cacheKeyOf, finalUrlStr]
  rw [h]
  dsimp only
  rw [hok, if_pos rfl, hbody]

lemma getCached_miss_effects {α : Type} (now nowSet : ℤ) (nowG nowU : ℚ)
    (responses : Nat → Response α) (rand : Nat → ℚ) (url : Url) (ttl : ℤ)
    (opts : FetchOptions) (st : ClientState α)
    (h : (getCacheEntry now (cacheKeyOf url opts) st.cache).1 = none) :
    (getCached now nowSet nowG nowU responses rand url ttl opts st).throttleKey =
        some (opts.tokenUserId.getD ("global".toList)) ∧
      (getCached now nowSet nowG nowU responses rand url ttl opts st).state.buckets =
        throttle (now : ℚ) nowG nowU st.buckets (opts.tokenUserId.getD ("global".toList)) ∧
      (getCached now nowSet nowG nowU responses rand url ttl opts st).cacheKey =
        cacheKeyOf url opts := by
  cases hok : (fetchWithRetry responses rand (finalUrlStr url opts) opts.ns).response.ok with
  | false =>
      rw [getCached_miss_notOk now nowSet nowG nowU responses rand url ttl opts st h hok]
      exact ⟨rfl, rfl, rfl⟩
  | true =>
      cases hbody : (fetchWithRetry responses rand (finalUrlStr url opts) opts.ns).response.body with
      | none =>
          rw [getCached_miss_ok_noBody now nowSet nowG nowU responses rand url ttl opts st h hok hbody]
          exact ⟨rfl, rfl, rfl⟩
      | some data =>
          rw [getCached_miss_ok_body now nowSet nowG nowU responses rand url ttl opts st data h hok hbody]
          exact ⟨rfl, rfl, rfl⟩

set_option maxHeartbeats 2000000 in
/-- C1 (amended): on a cache miss, when the final response of the retry
loop carries status 404 (or 403) and the request matches the legacy-data
classifier, `getCached` stores a negative entry (value `null`) whose TTL is
exactly twice the requested `ttlSeconds` and throws the typed error with
`endpointUnavailable = true`; every repeated call with the same cache key
within the doubled-TTL window performs no fetch and no throttling and
returns the cached `null` value (it does not throw again), the negative
entry being a present entry distinguishable from an absent one. -/
theorem getCached_negative_caching {α : Type} (now nowSet : ℤ) (nowG nowU : ℚ)
    (responses : Nat → Response α) (rand : Nat → ℚ) (url : Url) (ttl : ℤ)
    (opts : FetchOptions) (st : ClientState α)
    (hnd : (keysOf st.cache.memory).Nodup)
    (hmiss : (getCacheEntry now (cacheKeyOf url opts) st.cache).1 = none)
    (hclassic : isClassicEndpoint (finalUrlStr url opts) opts.ns = true)
    (hstatus : (fetchWithRetry responses rand (finalUrlStr url opts) opts.ns).response.status = 404 ∨
      (fetchWithRetry responses rand (finalUrlStr url opts) opts.ns).response.status = 403) :
    (getCached now nowSet nowG nowU responses rand url ttl opts st).result =
        Except.error (GetError.blizzardApi
          (fetchWithRetry responses rand (finalUrlStr url opts) opts.ns).response.status true) ∧
      lookupEntry (getCached now nowSet nowG nowU responses rand url ttl opts st).state.cache.memory
        (cacheKeyOf url opts) = some ⟨none, nowSet + ttl * 2 * 1000⟩ ∧
      ∀ (now3 nowSet3 : ℤ) (nowG3 nowU3 : ℚ) (responses3 : Nat → Response α) (rand3 : Nat → ℚ),
        now3 < nowSet + ttl * 2 * 1000 →
          (getCached now3 nowSet3 nowG3 nowU3 responses3 rand3 url ttl opts
              (getCached now nowSet nowG nowU responses rand url ttl opts st).state).result =
              Except.ok none ∧
            (getCached now3 nowSet3 nowG3 nowU3 responses3 rand3 url ttl opts
              (getCached now nowSet nowG nowU responses rand url ttl opts st).state).fetchAttempts = 0 ∧
            (getCached now3 nowSet3 nowG3 nowU3 responses3 rand3 url ttl opts
              (getCached now nowSet nowG nowU responses rand url ttl opts st).state).throttleKey = none := by
  have hok : (fetchWithRetry responses rand (finalUrlStr url opts) opts.ns).response.ok = false := by
    rcases hstatus with h | h <;> simp [Response.ok, h]
  have hflag : (((fetchWithRetry responses rand (finalUrlStr url opts) opts.ns).response.status == 403 ||
      (fetchWithRetry responses rand (finalUrlStr url opts) opts.ns).response.status == 404) &&
      isClassicEndpoint (finalUrlStr url opts) opts.ns) = true := by
    rcases hstatus with h | h <;> simp [h, hclassic]
  have hnd2 := nodup_keysOf_getCacheEntry st.cache (cacheKeyOf url opts) now hnd
  have hr := getCached_miss_notOk now nowSet nowG nowU responses rand url ttl opts st hmiss hok
  rw [hr]
  dsimp only
  rw [hflag]
  refine ⟨rfl, ?_, ?_⟩
  · rw [if_pos rfl]
    exact lruSet_lookup_self DEFAULT_MAX_LRU_ENTRIES
      (getCacheEntry now (cacheKeyOf url opts) st.cache).2.memory (cacheKeyOf url opts)
      ⟨none, nowSet + ttl * 2 * 1000⟩ hnd2 (by norm_num [DEFAULT_MAX_LRU_ENTRIES])
  · intro now3 nowSet3 nowG3 nowU3 responses3 rand3 h3
    rw [if_pos rfl]
    have hinv2 := setCacheEntry_rywInv (getCacheEntry now (cacheKeyOf url opts) st.cache).2
      (cacheKeyOf url opts) (none : Option α) (ttl * 2) nowSet hnd2
    have hhit := getCacheEntry_fst_of_rywInv _ _ _ hinv2 now3 h3
    rw [getCached_hit now3 nowSet3 nowG3 nowU3 responses3 rand3 url ttl opts
      { cache := setCacheEntry nowSet (cacheKeyOf url opts) none (ttl * 2)
          (getCacheEntry now (cacheKeyOf url opts) st.cache).2,
        buckets := throttle (now : ℚ) nowG nowU st.buckets
          (opts.tokenUserId.getD ("global".toList)) }
      ⟨none, nowSet + ttl * 2 * 1000⟩ hhit]
    exact ⟨rfl, rfl, rfl⟩

/-- C1 counterexample: after a classic-endpoint 404 populates the negative
entry (first call raises the typed `endpointUnavailable` error), the
repeated call inside the doubled-TTL window does not raise the
`EndpointUnavailable` failure again: it returns the cached `null` value
(`Except.ok none`) without any fetch attempt. -/
theorem getCached_negative_repeat_counterexample :
    (getCached 0 0 0 0 (fun _ => (⟨404, none, none⟩ : Response Nat)) (fun _ => 0)
        classicUrl 60 {} (freshClient Nat)).result =
        Except.error (GetError.blizzardApi 404 true) ∧
      (getCached 1000 1000 0 0 (fun _ => (⟨200, some 7, none⟩ : Response Nat)) (fun _ => 0)
        classicUrl 60 {}
        (getCached 0 0 0 0 (fun _ => (⟨404, none, none⟩ : Response Nat)) (fun _ => 0)
          classicUrl 60 {} (freshClient Nat)).state).result = Except.ok none ∧
      (getCached 1000 1000 0 0 (fun _ => (⟨200, some 7, none⟩ : Response Nat)) (fun _ => 0)
        classicUrl 60 {}
        (getCached 0 0 0 0 (fun _ => (⟨404, none, none⟩ : Response Nat)) (fun _ => 0)
          classicUrl 60 {} (freshClient Nat)).state).fetchAttempts = 0 :=
  ⟨by decide, by decide, by decide⟩

/-- C8 (amended): on a cache miss, every non-2xx final response makes
`getCached` throw the typed `BlizzardApiError` carrying the status and the
`endpointUnavailable` classification, but a 2xx response whose body fails
to parse makes it propagate the JSON parse error, which is not a
`BlizzardApiError` — so not every failure class is typed. -/
theorem getCached_failure_kinds {α : Type} (now nowSet : ℤ) (nowG nowU : ℚ)
    (responses : Nat → Response α) (rand : Nat → ℚ) (url : Url) (ttl : ℤ)
    (opts : FetchOptions) (st : ClientState α)
    (hmiss : (getCacheEntry now (cacheKeyOf url opts) st.cache).1 = none) :
    ((fetchWithRetry responses rand (finalUrlStr url opts) opts.ns).response.ok = false →
      (getCached now nowSet nowG nowU responses rand url ttl opts st).result =
        Except.error (GetError.blizzardApi
          (fetchWithRetry responses rand (finalUrlStr url opts) opts.ns).response.status
          (((fetchWithRetry responses rand (finalUrlStr url opts) opts.ns).response.status == 403 ||
              (fetchWithRetry responses rand (finalUrlStr url opts) opts.ns).response.status == 404) &&
            isClassicEndpoint (finalUrlStr url opts) opts.ns))) ∧
      ((fetchWithRetry responses rand (finalUrlStr url opts) opts.ns).response.ok = true →
        (fetchWithRetry responses rand (finalUrlStr url opts) opts.ns).response.body = none →
        (getCached now nowSet nowG nowU responses rand url ttl opts st).result =
          Except.error GetError.jsonParseFailure ∧
          isBlizzardApiError GetError.jsonParseFailure = false) := by
  constructor
  · intro hok
    rw [getCached_miss_notOk now nowSet nowG nowU responses rand url ttl opts st hmiss hok]
  · intro hok hbody
    rw [getCached_miss_ok_noBody now nowSet nowG nowU responses rand url ttl opts st hmiss hok hbody]
    exact ⟨rfl, rfl⟩

/-- C8 counterexample: a 2xx response with an unparsable body makes
`getCached` raise the JSON parse error, which is not a `BlizzardApiError`
(`instanceof` is false), so a failure escapes that is not the typed
`{status, endpointUnavailable}` error the claim promises for every
failure. -/
theorem getCached_parse_failure_counterexample :
    (getCached 0 0 0 0 (fun _ => (⟨200, none, none⟩ : Response Nat)) (fun _ => 0)
        plainUrl 60 {} (freshClient Nat)).result = Except.error GetError.jsonParseFailure ∧
      isBlizzardApiError GetError.jsonParseFailure = false :=
  ⟨by decide, by decide⟩

/-- Witness for the amended C1. -/
theorem getCached_negative_caching_witness :
    (getCached 0 0 0 0 (fun _ => (⟨404, none, none⟩ : Response Nat)) (fun _ => 0)
        classicUrl 60 {} (freshClient Nat)).result =
      Except.error (GetError.blizzardApi 404 true) :=
  ((getCached_negative_caching 0 0 0 0 (fun _ => (⟨404, none, none⟩ : Response Nat))
      (fun _ => 0) classicUrl 60 {} (freshClient Nat) (by decide) (by decide) (by decide)
      (Or.inl (by decide))).1).trans (by decide)

/-- Witness for the amended C8. -/
theorem getCached_failure_kinds_witness :
    (getCached 0 0 0 0 (fun _ => (⟨200, none, none⟩ : Response Nat)) (fun _ => 0)
        plainUrl 60 {} (freshClient Nat)).result = Except.error GetError.jsonParseFailure :=
  ((getCached_failure_kinds 0 0 0 0 (fun _ => (⟨200, none, none⟩ : Response Nat)) (fun _ => 0)
      plainUrl 60 {} (freshClient Nat) (by decide)).2 (by decide) (by decide)).1

/-- C7 (amended): a `getCached` call with `options.tokenUserId` absent uses
the fixed default identity `"global"` to select the per-caller rate-limit
bucket, but the empty string as the caller-identity component of the cache
key — the two partitions use different defaults, and neither is
`"anonymous"`. -/
theorem getCached_default_identity {α : Type} (now nowSet : ℤ) (nowG nowU : ℚ)
    (responses : Nat → Response α) (rand : Nat → ℚ) (url : Url) (ttl : ℤ)
    (opts : FetchOptions) (st : ClientState α)
    (hanon : opts.tokenUserId = none)
    (hmiss : (getCacheEntry now (cacheKeyOf url opts) st.cache).1 = none) :
    (getCached now nowSet nowG nowU responses rand url ttl opts st).throttleKey =
        some ("global".toList) ∧
      (getCached now nowSet nowG nowU responses rand url ttl opts st).cacheKey =
        joinSep sepStr [opts.method.getD ("GET".toList), finalUrlStr url opts,
          opts.ns.getD [], opts.locale.getD [], []] := by
  obtain ⟨ht, _, hck⟩ :=
    getCached_miss_effects now nowSet nowG nowU responses rand url ttl opts st hmiss
  constructor
  · rw [ht, hanon]
    rfl
  · rw [hck]
    simp [cacheKeyOf, buildCacheKey, hanon]

/-- Witness for the amended C7. -/
theorem getCached_default_identity_witness :
    (getCached 0 0 0 0 (fun _ => (⟨200, some 7, none⟩ : Response Nat)) (fun _ => 0)
        plainUrl 60 {} (freshClient Nat)).throttleKey = some ("global".toList) :=
  (getCached_default_identity 0 0 0 0 (fun _ => (⟨200, some 7, none⟩ : Response Nat))
      (fun _ => 0) plainUrl 60 {} (freshClient Nat) rfl (by decide)).1

/-- C7 counterexample: with `tokenUserId` absent, the bucket identity is
`"global"` and the cache-key caller component is the empty string: neither
equals the claimed `"anonymous"` default, and the two partitions disagree
with each other. -/
theorem getCached_default_identity_counterexample :
    (getCached 0 0 0 0 (fun _ => (⟨200, some 7, none⟩ : Response Nat)) (fun _ => 0)
        plainUrl 60 {} (freshClient Nat)).throttleKey = some ("global".toList) ∧
      (getCached 0 0 0 0 (fun _ => (⟨200, some 7, none⟩ : Response Nat)) (fun _ => 0)
        plainUrl 60 {} (freshClient Nat)).throttleKey ≠ some ("anonymous".toList) ∧
      (getCached 0 0 0 0 (fun _ => (⟨200, some 7, none⟩ : Response Nat)) (fun _ => 0)
        plainUrl 60 {} (freshClient Nat)).cacheKey =
        buildCacheKey ("GET".toList) ("https://example.com/data/item".toList) none none
          (some []) ∧
      (getCached 0 0 0 0 (fun _ => (⟨200, some 7, none⟩ : Response Nat)) (fun _ => 0)
        plainUrl 60 {} (freshClient Nat)).cacheKey ≠
        buildCacheKey ("GET".toList) ("https://example.com/data/item".toList) none none
          (some ("anonymous".toList)) ∧
      (("global".toList : Str) ≠ ([] : Str)) :=
  ⟨by decide, by decide, by decide, by decide, by decide⟩

lemma waitForTokenStep_capacity (nowQ : ℚ) (b : Bucket) :
    (waitForTokenStep nowQ b).capacity = b.capacity := by
  simp only [waitForTokenStep, refillBucket]
  split_ifs <;> rfl

lemma find?_append_key (l1 : List (Str × Bucket)) (g : Str) (b : Bucket)
    (hfresh : l1.find? (fun p => p.1 == g) = none) :
    (l1 ++ [(g, b)]).find? (fun p => p.1 == g) = some (g, b) := by
  rw [List.find?_append, hfresh]
  simp

lemma map_update_id (g : Str) (b2 : Bucket) :
    ∀ l : List (Str × Bucket), l.find? (fun p => p.1 == g) = none →
      (l.map fun p => if p.1 = g then (g, b2) else p) = l := by
  intro l
  induction l with
  | nil => intro _; rfl
  | cons p rest ih =>
      intro hfresh
      have hp : ¬((p.1 == g) = true) :=
        List.find?_eq_none.mp hfresh p (List.mem_cons_self _ _)
      have hrest : rest.find? (fun q => q.1 == g) = none :=
        List.find?_eq_none.mpr fun x hx =>
          List.find?_eq_none.mp hfresh x (List.mem_cons_of_mem _ hx)
      have hne : p.1 ≠ g := by simpa using hp
      simp only [List.map_cons, ih hrest, if_neg hne]

lemma throttle_fresh (nowQ nowG nowU : ℚ) (tb : ThrottleState) (g : Str)
    (hfresh : tb.userBuckets.find? (fun p => p.1 == g) = none) :
    throttle nowQ nowG nowU tb g =
      { globalBucket := waitForTokenStep nowG tb.globalBucket,
        userBuckets := tb.userBuckets ++
          [(g, waitForTokenStep nowU (createTokenBucket nowQ PER_USER_RPS))] } := by
  simp only [throttle, getUserBucket, hfresh]
  dsimp only [updateUserBucket]
  congr 1
  rw [List.map_append, map_update_id g _ tb.userBuckets hfresh]
  simp

lemma throttle_after_fresh (nowQ nowG nowU : ℚ) (l1 : List (Str × Bucket)) (G : Bucket)
    (g : Str) (b : Bucket) (hfresh : l1.find? (fun p => p.1 == g) = none) :
    throttle nowQ nowG nowU { globalBucket := G, userBuckets := l1 ++ [(g, b)] } g =
      { globalBucket := waitForTokenStep nowG G,
        userBuckets := l1 ++ [(g, waitForTokenStep nowU b)] } := by
  simp only [throttle, getUserBucket, find?_append_key l1 g b hfresh]
  dsimp only [updateUserBucket]
  congr 1
  rw [List.map_append, map_update_id g _ l1 hfresh]
  simp

lemma joinSep_five_length (a b c d e : Str) :
    (joinSep sepStr [a, b, c, d, e]).length =
      a.length + b.length + c.length + d.length + e.length + 8 := by
  rw [joinSep_five]
  simp [List.length_append]
  omega

/-- C10: a `getCached` call that omits `tokenUserId` and one that passes
`tokenUserId = "global"` both resolve their per-caller token to the same
registry entry keyed `"global"`: the first call lazily creates that entry
with the per-user rate, the second call finds and debits the very same
entry (the registry gains no new bucket), and both calls debit the global
bucket as a separate state component; yet the two calls use different
cache-key partitions, so their cache keys differ. -/
theorem anonymous_and_global_share_registry_bucket {α : Type}
    (now now2 nowSet nowSet2 : ℤ) (nowG nowG2 nowU nowU2 : ℚ)
    (responses responses2 : Nat → Response α) (rand rand2 : Nat → ℚ)
    (url : Url) (ttl : ℤ) (method ns loc : Option Str) (st : ClientState α)
    (hfresh : st.buckets.userBuckets.find? (fun p => p.1 == ("global".toList : Str)) = none)
    (hmiss1 : (getCacheEntry now (cacheKeyOf url ⟨method, ns, loc, none, none⟩) st.cache).1 = none)
    (hmiss2 : (getCacheEntry now2
        (cacheKeyOf url ⟨method, ns, loc, some ("global".toList), none⟩)
        (getCached now nowSet nowG nowU responses rand url ttl
          ⟨method, ns, loc, none, none⟩ st).state.cache).1 = none) :
    (getCached now nowSet nowG nowU responses rand url ttl
        ⟨method, ns, loc, none, none⟩ st).throttleKey = some ("global".toList) ∧
      (getCached now2 nowSet2 nowG2 nowU2 responses2 rand2 url ttl
          ⟨method, ns, loc, some ("global".toList), none⟩
          (getCached now nowSet nowG nowU responses rand url ttl
            ⟨method, ns, loc, none, none⟩ st).state).throttleKey = some ("global".toList) ∧
      (getCached now nowSet nowG nowU responses rand url ttl
          ⟨method, ns, loc, none, none⟩ st).state.buckets =
        { globalBucket := waitForTokenStep nowG st.buckets.globalBucket,
          userBuckets := st.buckets.userBuckets ++
            [("global".toList,
              waitForTokenStep nowU (createTokenBucket (now : ℚ) PER_USER_RPS))] } ∧
      (getCached now2 nowSet2 nowG2 nowU2 responses2 rand2 url ttl
          ⟨method, ns, loc, some ("global".toList), none⟩
          (getCached now nowSet nowG nowU responses rand url ttl
            ⟨method, ns, loc, none, none⟩ st).state).state.buckets =
        { globalBucket := waitForTokenStep nowG2 (waitForTokenStep nowG st.buckets.globalBucket),
          userBuckets := st.buckets.userBuckets ++
            [("global".toList,
              waitForTokenStep nowU2
                (waitForTokenStep nowU (createTokenBucket (now : ℚ) PER_USER_RPS)))] } ∧
      (waitForTokenStep nowU (createTokenBucket (now : ℚ) PER_USER_RPS)).capacity =
        PER_USER_RPS ∧
      (getCached now nowSet nowG nowU responses rand url ttl
          ⟨method, ns, loc, none, none⟩ st).cacheKey ≠
        (getCached now2 nowSet2 nowG2 nowU2 responses2 rand2 url ttl
          ⟨method, ns, loc, some ("global".toList), none⟩
          (getCached now nowSet nowG nowU responses rand url ttl
            ⟨method, ns, loc, none, none⟩ st).state).cacheKey := by
  obtain ⟨ht1, hbk1, hck1⟩ :=
    getCached_miss_effects now nowSet nowG nowU responses rand url ttl
      ⟨method, ns, loc, none, none⟩ st hmiss1
  obtain ⟨ht2, hbk2, hck2⟩ :=
    getCached_miss_effects now2 nowSet2 nowG2 nowU2 responses2 rand2 url ttl
      ⟨method, ns, loc, some ("global".toList), none⟩ _ hmiss2
  simp only [Option.getD_some, Option.getD_none] at ht1 hbk1 ht2 hbk2
  rw [throttle_fresh (now : ℚ) nowG nowU st.buckets ("global".toList) hfresh] at hbk1
  rw [hbk1, throttle_after_fresh (now2 : ℚ) nowG2 nowU2 st.buckets.userBuckets
    (waitForTokenStep nowG st.buckets.globalBucket) ("global".toList)
    (waitForTokenStep nowU (createTokenBucket (now : ℚ) PER_USER_RPS)) hfresh] at hbk2
  refine ⟨ht1, ht2, hbk1, hbk2, ?_, ?_⟩
  · rw [waitForTokenStep_capacity]
    rfl
  · rw [hck1, hck2]
    intro heq
    have hlen := congrArg List.length heq
    simp only [cacheKeyOf, buildCacheKey, finalUrlStr] at hlen
    rw [joinSep_five_length, joinSep_five_length] at hlen
    have h6 : (("global".toList : Str).length) = 6 := rfl
    simp only [Option.getD_some, Option.getD_none, h6, List.length_nil] at hlen
    omega

/-- Witness for C10 on a fresh client. -/
theorem anonymous_and_global_share_registry_bucket_witness :
    (getCached 0 0 0 0 (fun _ => (⟨200, some 7, none⟩ : Response Nat)) (fun _ => 0)
        plainUrl 60 ⟨none, none, none, none, none⟩ (freshClient Nat)).throttleKey =
        some ("global".toList) ∧
      (getCached 5 5 0 0 (fun _ => (⟨200, some 8, none⟩ : Response Nat)) (fun _ => 0)
          plainUrl 60 ⟨none, none, none, some ("global".toList), none⟩
          (getCached 0 0 0 0 (fun _ => (⟨200, some 7, none⟩ : Response Nat)) (fun _ => 0)
            plainUrl 60 ⟨none, none, none, none, none⟩ (freshClient Nat)).state).throttleKey =
        some ("global".toList) :=
  ⟨(anonymous_and_global_share_registry_bucket 0 5 0 5 0 0 0 0
      (fun _ => (⟨200, some 7, none⟩ : Response Nat)) (fun _ => (⟨200, some 8, none⟩ : Response Nat))
      (fun _ => 0) (fun _ => 0) plainUrl 60 none none none (freshClient Nat)
      rfl (by decide) (by decide)).1,
   (anonymous_and_global_share_registry_bucket 0 5 0 5 0 0 0 0
      (fun _ => (⟨200, some 7, none⟩ : Response Nat)) (fun _ => (⟨200, some 8, none⟩ : Response Nat))
      (fun _ => 0) (fun _ => 0) plainUrl 60 none none none (freshClient Nat)
      rfl (by decide) (by decide)).2.1⟩

lemma projG_cons (p : GEntry α) (g : List (GEntry α)) :
    projG (p :: g) = (p.1, p.2.1) :: projG g := rfl

lemma projG_append (g1 g2 : List (GEntry α)) :
    projG (g1 ++ g2) = projG g1 ++ projG g2 := by
  simp [projG]

lemma keysG_cons (p : GEntry α) (g : List (GEntry α)) :
    keysG (p :: g) = p.1 :: keysG g := rfl

lemma keysG_append (g1 g2 : List (GEntry α)) :
    keysG (g1 ++ g2) = keysG g1 ++ keysG g2 := by
  simp [keysG]

lemma stampsG_append (g1 g2 : List (GEntry α)) :
    stampsG (g1 ++ g2) = stampsG g1 ++ stampsG g2 := by
  simp [stampsG]

lemma keysOf_projG (g : List (GEntry α)) : keysOf (projG g) = keysG g := by
  simp [keysOf, projG, keysG, List.map_map]

lemma gErase_cons (p : GEntry α) (g : List (GEntry α)) (k : Str) :
    gErase (p :: g) k = if p.1 = k then g else p :: gErase g k := by
  by_cases h : p.1 = k
  · simp [gErase, List.eraseP_cons, beqStr_true h, h]
  · simp [gErase, List.eraseP_cons, beqStr_false h, h]

lemma gErase_sublist (g : List (GEntry α)) (k : Str) :
    List.Sublist (gErase g k) g :=
  List.eraseP_sublist g

lemma gSetPrep_sublist (g : List (GEntry α)) (k : Str) :
    List.Sublist (gSetPrep g k) g := by
  unfold gSetPrep
  split_ifs
  · exact gErase_sublist g k
  · exact List.Sublist.refl g

lemma mem_gErase_of_ne {g : List (GEntry α)} {p : GEntry α} {k : Str}
    (hp : p ∈ g) (hpk : p.1 ≠ k) : p ∈ gErase g k := by
  induction g with
  | nil => simp at hp
  | cons w rest ih =>
      rw [gErase_cons]
      by_cases h : w.1 = k
      · rw [if_pos h]
        rcases List.mem_cons.mp hp with hw | hw
        · exact absurd (hw ▸ h) hpk
        · exact hw
      · rw [if_neg h]
        rcases List.mem_cons.mp hp with hw | hw
        · exact hw ▸ List.mem_cons_self _ _
        · exact List.mem_cons_of_mem _ (ih hw)

lemma mem_gSetPrep {g : List (GEntry α)} {p : GEntry α} {k : Str}
    (hp : p ∈ g) (hpk : p.1 ≠ k) : p ∈ gSetPrep g k := by
  unfold gSetPrep
  split_ifs
  · exact mem_gErase_of_ne hp hpk
  · exact hp

lemma projG_gErase (g : List (GEntry α)) (k : Str) :
    projG (gErase g k) = eraseKey (projG g) k := by
  induction g with
  | nil => rfl
  | cons p rest ih =>
      rw [gErase_cons, projG_cons, eraseKey_cons]
      by_cases h : p.1 = k
      · rw [if_pos h, if_pos h]
      · rw [if_neg h, if_neg h, projG_cons, ih]

lemma lookupEntry_projG (g : List (GEntry α)) (k : Str) :
    lookupEntry (projG g) k = (gLookup g k).map fun p => p.2.1 := by
  induction g with
  | nil => rfl
  | cons p rest ih =>
      rw [projG_cons, lookupEntry_cons]
      by_cases h : p.1 = k
      · rw [if_pos h]
        rw [show gLookup (p :: rest) k = some p from
          List.find?_cons_of_pos rest (beqStr_true h)]
        rfl
      · rw [if_neg h]
        rw [show gLookup (p :: rest) k = gLookup rest k from
          List.find?_cons_of_neg rest (by simpa using h)]
        exact ih

lemma any_projG (g : List (GEntry α)) (k : Str) :
    (projG g).any (fun p => p.1 == k) = g.any fun p => p.1 == k := by
  induction g with
  | nil => rfl
  | cons p rest ih =>
      rw [projG_cons, List.any_cons, List.any_cons, ih]

lemma projG_gGet (i : Nat) (g : List (GEntry α)) (k : Str) :
    projG (gGet i g k) = (lruGet (projG g) k).2 := by
  cases h : gLookup g k with
  | none =>
      have hl : lookupEntry (projG g) k = none := by
        rw [lookupEntry_projG, h]
        rfl
      simp [gGet, h, lruGet, hl]
  | some p =>
      have hl : lookupEntry (projG g) k = some p.2.1 := by
        rw [lookupEntry_projG, h]
        rfl
      simp only [gGet, h, lruGet, hl]
      rw [projG_append, projG_gErase]
      rfl

lemma projG_gSetPrep (g : List (GEntry α)) (k : Str) :
    projG (gSetPrep g k) = lruSetPrep (projG g) k := by
  unfold gSetPrep lruSetPrep
  rw [any_projG]
  by_cases h : g.any (fun p => p.1 == k) = true
  · rw [if_pos h, if_pos h]
    exact projG_gErase g k
  · rw [if_neg h, if_neg h]

lemma gSet_eq_of_cons (maxEntries i : Nat) {g : List (GEntry α)} (k : Str)
    (e : CacheEntry α) {q : GEntry α} {t : List (GEntry α)}
    (h1 : gSetPrep g k = q :: t) :
    gSet maxEntries i g k e =
      if maxEntries < (q :: t ++ [(k, e, i)]).length then
        gErase (q :: t ++ [(k, e, i)]) q.1
      else q :: t ++ [(k, e, i)] := by
  have h1x : (if g.any (fun p => p.1 == k) then gErase g k else g) = q :: t := h1
  simp only [gSet, h1x, List.cons_append]

lemma gSet_eq_of_nil (maxEntries i : Nat) {g : List (GEntry α)} (k : Str)
    (e : CacheEntry α) (h1 : gSetPrep g k = []) :
    gSet maxEntries i g k e =
      if maxEntries < 1 then gErase [(k, e, i)] k else [(k, e, i)] := by
  have h1x : (if g.any (fun p => p.1 == k) then gErase g k else g) = [] := h1
  simp only [gSet, h1x, List.nil_append, List.length_singleton]

lemma projG_gSet (maxEntries i : Nat) (g : List (GEntry α)) (k : Str) (e : CacheEntry α) :
    projG (gSet maxEntries i g k e) = lruSet maxEntries (projG g) k e := by
  cases h1 : gSetPrep g k with
  | nil =>
      have h1p : lruSetPrep (projG g) k = [] := by
        rw [← projG_gSetPrep, h1]
        rfl
      rw [gSet_eq_of_nil maxEntries i k e h1, lruSet_eq_of_nil maxEntries k e h1p]
      split_ifs with h
      · rw [projG_gErase]
        rfl
      · rfl
  | cons q t =>
      have h1p : lruSetPrep (projG g) k = (q.1, q.2.1) :: projG t := by
        rw [← projG_gSetPrep, h1]
        rfl
      rw [gSet_eq_of_cons maxEntries i k e h1, lruSet_eq_of_cons maxEntries k e h1p]
      have hproj2 : projG (q :: (t ++ [(k, e, i)])) = (q.1, q.2.1) :: projG t ++ [(k, e)] := by
        rw [projG_cons, projG_append]
        rfl
      have hlen : ((q.1, q.2.1) :: projG t ++ [(k, e)]).length = (q :: t ++ [(k, e, i)]).length := by
        simp [projG]
      rw [hlen]
      split_ifs with h
      · rw [projG_gErase]
        exact congrArg (fun l => eraseKey l q.1) hproj2
      · exact hproj2

lemma projG_gStep (maxEntries : Nat) (g : List (GEntry α)) (i : Nat) (op : LruOp α) :
    projG (gStep maxEntries g (i, op)) = lruStep maxEntries (projG g) op := by
  cases op with
  | getOp k => exact projG_gGet i g k
  | setOp k e => exact projG_gSet maxEntries i g k e

lemma foldl_gStep_proj (maxEntries : Nat) :
    ∀ (ops : List (LruOp α)) (i : Nat) (g : List (GEntry α)),
      projG ((List.enumFrom i ops).foldl (gStep maxEntries) g) =
        ops.foldl (lruStep maxEntries) (projG g) := by
  intro ops
  induction ops with
  | nil => intro i g; rfl
  | cons op rest ih =>
      intro i g
      show projG ((List.enumFrom (i + 1) rest).foldl (gStep maxEntries)
        (gStep maxEntries g (i, op))) =
        rest.foldl (lruStep maxEntries) (lruStep maxEntries (projG g) op)
      rw [ih (i + 1) (gStep maxEntries g (i, op)), projG_gStep]

lemma lruRun_eq_projG_gRun (maxEntries : Nat) (ops : List (LruOp α)) :
    lruRun maxEntries ops = projG (gRun maxEntries ops) :=
  (foldl_gStep_proj maxEntries ops 0 []).symm

lemma stampsG_sublist {g1 g2 : List (GEntry α)} (h : List.Sublist g1 g2) :
    List.Sublist (stampsG g1) (stampsG g2) :=
  h.map _

lemma keysG_sublist {g1 g2 : List (GEntry α)} (h : List.Sublist g1 g2) :
    List.Sublist (keysG g1) (keysG g2) :=
  h.map _

lemma ghostInv_sublist {n : Nat} {g1 g2 : List (GEntry α)} (h : List.Sublist g1 g2)
    (hinv : GhostInv n g2) : GhostInv n g1 :=
  ⟨hinv.1.sublist (stampsG_sublist h),
   fun s hs => hinv.2.1 s ((stampsG_sublist h).subset hs),
   hinv.2.2.sublist (keysG_sublist h)⟩

lemma ghostInv_nil : GhostInv 0 ([] : List (GEntry α)) :=
  ⟨List.Pairwise.nil, fun s hs => by simp [stampsG] at hs, List.nodup_nil⟩

lemma not_mem_keysG_gErase (g : List (GEntry α)) (k : Str)
    (hnd : (keysG g).Nodup) : k ∉ keysG (gErase g k) := by
  rw [← keysOf_projG, projG_gErase]
  exact not_mem_keysOf_eraseKey (projG g) k (by rw [keysOf_projG]; exact hnd)

lemma ghostInv_append_new {n : Nat} {g : List (GEntry α)} {k : Str} {e : CacheEntry α}
    (hpw : List.Pairwise (· < ·) (stampsG g)) (hlt : ∀ s ∈ stampsG g, s < n)
    (hnd : (keysG g).Nodup) (hk : k ∉ keysG g) :
    GhostInv (n + 1) (g ++ [(k, e, n)]) := by
  refine ⟨?_, ?_, ?_⟩
  · rw [stampsG_append, List.pairwise_append]
    refine ⟨hpw, List.pairwise_singleton _ _, ?_⟩
    intro a ha b hb
    have hb' : b = n := by simpa [stampsG] using hb
    subst hb'
    exact hlt a ha
  · intro s hs
    rw [stampsG_append] at hs
    rcases List.mem_append.mp hs with hs | hs
    · exact Nat.lt_succ_of_lt (hlt s hs)
    · have : s = n := by simpa [stampsG] using hs
      omega
  · rw [keysG_append, List.nodup_append]
    refine ⟨hnd, List.nodup_singleton _, ?_⟩
    intro a ha hak
    have : a = k := by simpa [keysG] using hak
    exact hk (this ▸ ha)

lemma ghostInv_gStep (maxEntries i : Nat) (g : List (GEntry α)) (op : LruOp α)
    (hinv : GhostInv i g) : GhostInv (i + 1) (gStep maxEntries g (i, op)) := by
  obtain ⟨hpw, hlt, hnd⟩ := hinv
  cases op with
  | getOp k =>
      show GhostInv (i + 1) (gGet i g k)
      cases h : gLookup g k with
      | none =>
          simp only [gGet, h]
          exact ⟨hpw, fun s hs => Nat.lt_succ_of_lt (hlt s hs), hnd⟩
      | some p =>
          simp only [gGet, h]
          exact ghostInv_append_new
            (hpw.sublist (stampsG_sublist (gErase_sublist g k)))
            (fun s hs => hlt s ((stampsG_sublist (gErase_sublist g k)).subset hs))
            (hnd.sublist (keysG_sublist (gErase_sublist g k)))
            (not_mem_keysG_gErase g k hnd)
  | setOp k e =>
      show GhostInv (i + 1) (gSet maxEntries i g k e)
      have hpre_k : k ∉ keysG (gSetPrep g k) := by
        unfold gSetPrep
        split_ifs with hany
        · exact not_mem_keysG_gErase g k hnd
        · intro hmem
          obtain ⟨pp, hpp, hppk⟩ := List.mem_map.mp hmem
          exact absurd (List.any_eq_true.mpr ⟨pp, hpp, beqStr_true hppk⟩) hany
      have hm2 : GhostInv (i + 1) (gSetPrep g k ++ [(k, e, i)]) :=
        ghostInv_append_new
          (hpw.sublist (stampsG_sublist (gSetPrep_sublist g k)))
          (fun s hs => hlt s ((stampsG_sublist (gSetPrep_sublist g k)).subset hs))
          (hnd.sublist (keysG_sublist (gSetPrep_sublist g k)))
          hpre_k
      cases h1 : gSetPrep g k with
      | nil =>
          rw [h1] at hm2
          rw [gSet_eq_of_nil maxEntries i k e h1]
          split_ifs with h
          · exact ghostInv_sublist (gErase_sublist _ _) (by simpa using hm2)
          · simpa using hm2
      | cons q t =>
          rw [h1] at hm2
          rw [gSet_eq_of_cons maxEntries i k e h1]
          split_ifs with h
          · exact ghostInv_sublist (gErase_sublist _ _) hm2
          · exact hm2

lemma ghostInv_foldl (maxEntries : Nat) :
    ∀ (ops : List (LruOp α)) (i : Nat) (g : List (GEntry α)), GhostInv i g →
      GhostInv (i + ops.length) ((List.enumFrom i ops).foldl (gStep maxEntries) g) := by
  intro ops
  induction ops with
  | nil => intro i g h; simpa using h
  | cons op rest ih =>
      intro i g h
      show GhostInv (i + (rest.length + 1))
        ((List.enumFrom (i + 1) rest).foldl (gStep maxEntries) (gStep maxEntries g (i, op)))
      have harith : i + (rest.length + 1) = (i + 1) + rest.length := by omega
      rw [harith]
      exact ih (i + 1) (gStep maxEntries g (i, op)) (ghostInv_gStep maxEntries i g op h)

lemma ghostInv_gRun (maxEntries : Nat) (ops : List (LruOp α)) :
    GhostInv ops.length (gRun maxEntries ops) := by
  have h := ghostInv_foldl maxEntries ops 0 [] ghostInv_nil
  rw [Nat.zero_add] at h
  exact h

lemma lruSetPrep_length_le (m : List (Str × CacheEntry α)) (k : Str) :
    (lruSetPrep m k).length ≤ m.length := by
  unfold lruSetPrep
  split_ifs
  · exact List.length_eraseP_le m
  · exact le_refl _

lemma lruSet_length (maxEntries : Nat) (m : List (Str × CacheEntry α)) (k : Str)
    (e : CacheEntry α) (hmax : 1 ≤ maxEntries) (h : m.length ≤ maxEntries) :
    (lruSet maxEntries m k e).length ≤ maxEntries := by
  cases h1 : lruSetPrep m k with
  | nil =>
      rw [lruSet_eq_of_nil maxEntries k e h1]
      split_ifs with hl
      · calc (eraseKey [(k, e)] k).length ≤ [(k, e)].length := List.length_eraseP_le _
          _ ≤ maxEntries := hmax
      · exact hmax
  | cons q t =>
      rw [lruSet_eq_of_cons maxEntries k e h1]
      have hq : (q :: t).length ≤ m.length := h1 ▸ lruSetPrep_length_le m k
      split_ifs with hl
      · have herase : (eraseKey (q :: (t ++ [(k, e)])) q.1).length =
            (q :: (t ++ [(k, e)])).length - 1 :=
          List.length_eraseP_of_mem (List.mem_cons_self _ _) (beqStr_true rfl)
        have hgoal : (eraseKey (q :: t ++ [(k, e)]) q.1).length =
            (q :: t ++ [(k, e)]).length - 1 := herase
        rw [hgoal]
        simp only [List.length_cons, List.length_append, List.length_singleton,
          List.length_nil] at *
        omega
      · exact Nat.le_of_not_lt hl

lemma lruStep_length (maxEntries : Nat) (m : List (Str × CacheEntry α)) (op : LruOp α)
    (hmax : 1 ≤ maxEntries) (h : m.length ≤ maxEntries) :
    (lruStep maxEntries m op).length ≤ maxEntries := by
  cases op with
  | getOp k =>
      show (lruGet m k).2.length ≤ maxEntries
      cases hl : lookupEntry m k with
      | none => simpa [lruGet, hl] using h
      | some e =>
          simp only [lruGet, hl]
          cases hf : m.find? (fun p => p.1 == k) with
          | none =>
              rw [lookupEntry] at hl
              rw [hf] at hl
              simp at hl
          | some pp =>
              have hmem := List.mem_of_find?_eq_some hf
              have hpred := List.find?_some hf
              have hlen : (eraseKey m k).length = m.length - 1 :=
                List.length_eraseP_of_mem hmem hpred
              have hpos : 1 ≤ m.length := List.length_pos_of_mem hmem
              rw [List.length_append, hlen]
              simp only [List.length_singleton]
              omega
  | setOp k e =>
      show (lruSet maxEntries m k e).length ≤ maxEntries
      exact lruSet_length maxEntries m k e hmax h

lemma lruRun_length (maxEntries : Nat) (ops : List (LruOp α)) (hmax : 1 ≤ maxEntries) :
    (lruRun maxEntries ops).length ≤ maxEntries := by
  have hgen : ∀ (l : List (LruOp α)) (m : List (Str × CacheEntry α)),
      m.length ≤ maxEntries → (l.foldl (lruStep maxEntries) m).length ≤ maxEntries := by
    intro l
    induction l with
    | nil => intro m h; exact h
    | cons op rest ih =>
        intro m h
        exact ih _ (lruStep_length maxEntries m op hmax h)
  exact hgen ops [] (by simp)

lemma pairwise_of_stampsG {g : List (GEntry α)}
    (h : List.Pairwise (· < ·) (stampsG g)) :
    List.Pairwise (fun a b : GEntry α => a.2.2 < b.2.2) g :=
  List.pairwise_map.mp h

lemma gSet_evicted_minimal (maxEntries i : Nat) (g : List (GEntry α)) (k : Str)
    (e : CacheEntry α) (hinv : GhostInv i g) (p : GEntry α) (hp : p ∈ g)
    (hnot : p.1 ∉ keysG (gSet maxEntries i g k e)) (hpk : p.1 ≠ k) :
    ∀ q ∈ g, q.1 ≠ p.1 → q.1 ≠ k → p.2.2 < q.2.2 := by
  obtain ⟨hpw, hlt, hnd⟩ := hinv
  intro q hq hqp hqk
  have hppre : p ∈ gSetPrep g k := mem_gSetPrep hp hpk
  have hqpre : q ∈ gSetPrep g k := mem_gSetPrep hq hqk
  cases h1 : gSetPrep g k with
  | nil =>
      rw [h1] at hppre
      simp at hppre
  | cons w t =>
      rw [h1] at hppre hqpre
      rw [gSet_eq_of_cons maxEntries i k e h1] at hnot
      by_cases hlen : maxEntries < (w :: t ++ [(k, e, i)]).length
      · rw [if_pos hlen] at hnot
        have hres : gErase ((w :: t) ++ [(k, e, i)]) w.1 = t ++ [(k, e, i)] := by
          rw [List.cons_append, gErase_cons, if_pos rfl]
        rw [hres] at hnot
        have hpweq : p = w := by
          rcases List.mem_cons.mp hppre with h | h
          · exact h
          · refine absurd ?_ hnot
            rw [keysG_append]
            exact List.mem_append_left _ (List.mem_map_of_mem _ h)
        have hqt : q ∈ t := by
          rcases List.mem_cons.mp hqpre with h | h
          · exact absurd (by rw [h, hpweq]) hqp
          · exact h
        have hgpw : List.Pairwise (fun a b : GEntry α => a.2.2 < b.2.2) (w :: t) := by
          have hsub := gSetPrep_sublist g k
          rw [h1] at hsub
          exact (pairwise_of_stampsG hpw).sublist hsub
        rw [hpweq]
        exact (List.pairwise_cons.mp hgpw).1 q hqt
      · rw [if_neg hlen] at hnot
        refine absurd ?_ hnot
        have hpfull : p ∈ w :: (t ++ [(k, e, i)]) := by
          rcases List.mem_cons.mp hppre with h | h
          · rw [h]
            exact List.mem_cons_self _ _
          · exact List.mem_cons_of_mem _ (List.mem_append_left _ h)
        exact List.mem_map_of_mem _ hpfull

/-- C9: over every sequence of `get`/`set` operations on the in-memory tier,
the real LRU state is the stamp-erasure of a ghost state whose stamps record
the index of the last touching operation (a `get` hit or a `set` both
re-stamp); the number of stored keys never exceeds
`DEFAULT_MAX_LRU_ENTRIES = 300`; stamps strictly increase along the list, so
the list order is exactly recency order; and whenever a further insertion
`lruSet` drops a key that was present (other than the inserted key itself),
the dropped entry's stamp is strictly smaller than that of every other
surviving candidate, i.e. the evicted key is the least recently touched. -/
theorem lruCache_bound_and_lru_eviction {α : Type} (ops : List (LruOp α)) :
    lruRun DEFAULT_MAX_LRU_ENTRIES ops = projG (gRun DEFAULT_MAX_LRU_ENTRIES ops) ∧
      (lruRun DEFAULT_MAX_LRU_ENTRIES ops).length ≤ DEFAULT_MAX_LRU_ENTRIES ∧
      List.Pairwise (· < ·) (stampsG (gRun DEFAULT_MAX_LRU_ENTRIES ops)) ∧
      ∀ (k : Str) (e : CacheEntry α) (p : GEntry α),
        p ∈ gRun DEFAULT_MAX_LRU_ENTRIES ops →
        p.1 ∉ keysOf (lruSet DEFAULT_MAX_LRU_ENTRIES (lruRun DEFAULT_MAX_LRU_ENTRIES ops) k e) →
        p.1 ≠ k →
        ∀ q ∈ gRun DEFAULT_MAX_LRU_ENTRIES ops, q.1 ≠ p.1 → q.1 ≠ k → p.2.2 < q.2.2 := by
  have hproj := lruRun_eq_projG_gRun (α := α) DEFAULT_MAX_LRU_ENTRIES ops
  have hinv := ghostInv_gRun (α := α) DEFAULT_MAX_LRU_ENTRIES ops
  refine ⟨hproj, lruRun_length _ _ (by norm_num [DEFAULT_MAX_LRU_ENTRIES]), hinv.1, ?_⟩
  intro k e p hp hnot hpk q hq hqp hqk
  have hnot2 : p.1 ∉ keysG (gSet DEFAULT_MAX_LRU_ENTRIES ops.length
      (gRun DEFAULT_MAX_LRU_ENTRIES ops) k e) := by
    rw [← keysOf_projG, projG_gSet, ← hproj]
    exact hnot
  exact gSet_evicted_minimal DEFAULT_MAX_LRU_ENTRIES ops.length
    (gRun DEFAULT_MAX_LRU_ENTRIES ops) k e hinv p hp hnot2 hpk q hq hqp hqk

/-- Closed instance of the LRU bound, via the C9 theorem at a concrete
one-operation trace. -/
theorem lruCache_bound_and_lru_eviction_witness :
    (lruRun DEFAULT_MAX_LRU_ENTRIES
        [LruOp.setOp (α := Nat) ("k".toList) {value := 7, expiresAt := 5}]).length ≤
      DEFAULT_MAX_LRU_ENTRIES :=
  (lruCache_bound_and_lru_eviction
    [LruOp.setOp (α := Nat) ("k".toList) {value := 7, expiresAt := 5}]).2.1

end Blizzard
